import Mathlib

/-!
# go-k8s: create a pod, wait for it, run a command in it, filter the output, delete it

A shallow embedding of `main.go`.  Go strings are byte sequences; remote
collaborators (the cluster API client and the remote-command transport)
are an oracle `World` that answers each call; a run of `main` is the list
of calls and standard-output writes it performs, plus the way it ends.
-/

namespace GoK8s

/-! ## Strings -/

/-- A Go `byte`. -/
abbrev Byte := UInt8

/-- A Go `string` (also `[]byte`): a sequence of bytes. -/
abbrev GoString := List Byte

/-- An ASCII string literal as a Go string. -/
def ascii (s : String) : GoString := s.toList.map (fun c => c.toNat.toUInt8)

/-- Go `strings.HasPrefix(s, prefix)`. -/
def HasPrefix : GoString → GoString → Bool
  | _, [] => true
  | [], _ :: _ => false
  | a :: s, b :: p => a == b && HasPrefix s p

/-- Go `strings.Contains(s, substr)`: `substr` occurs in `s` as a contiguous
run of bytes. -/
def Contains : GoString → GoString → Bool
  | [], substr => HasPrefix [] substr
  | a :: s, substr => HasPrefix (a :: s) substr || Contains s substr

/-- Go `fmt.Println(args...)` on string operands: the operands separated
by single spaces, followed by a newline. -/
def Println (args : List GoString) : GoString :=
  List.intercalate [32] args ++ [10]

/-! ## `bufio.Scanner` with the default split function, as used by `checkOutput` -/

/-- Go `bufio.MaxScanTokenSize`: the size the scanner's buffer may grow to. -/
def MaxScanTokenSize : Nat := 64 * 1024

/-- Go `bytes.IndexByte(data, c)`: position of the first `c`, if any. -/
def IndexByte : List Byte → Byte → Option Nat
  | [], _ => none
  | b :: rest, c => if b = c then some 0 else (IndexByte rest c).map (· + 1)

/-- Go `bufio.dropCR`: drop one trailing carriage return. -/
def dropCR (data : List Byte) : List Byte :=
  if data.getLast? = some 13 then data.dropLast else data

/-- Go `bufio.ScanLines(data, atEOF)`: the number of bytes to advance and the
token found, if any (this split function never returns an error). -/
def ScanLines (data : List Byte) (atEOF : Bool) : Nat × Option (List Byte) :=
  if atEOF && data.length == 0 then (0, none)
  else
    match IndexByte data 10 with
    | some i => (i + 1, some (dropCR (data.take i)))
    | none => if atEOF then (data.length, some (dropCR data)) else (0, none)

/-- The errors a scanner records: the end of the input (`io.EOF`) and a
token that does not fit the buffer (`bufio.ErrTooLong`). -/
inductive ScanErr
  | EOF
  | ErrTooLong
  deriving DecidableEq, Repr

/-- A `bufio.Scanner` over an in-memory reader: the bytes of the reader not
yet read (`src`), the bytes read and not yet consumed as tokens (`buf`,
Go's `s.buf[s.start:s.end]`), the recorded error (`s.err`) and the flag
`s.done`, which only a split function returning a final token sets. -/
structure Scanner where
  src : List Byte
  buf : List Byte
  err : Option ScanErr
  done : Bool
  deriving DecidableEq, Repr

/-- Go `bufio.NewScanner(bufio.NewReader(strings.NewReader(s)))`. -/
def NewScanner (s : GoString) : Scanner := ⟨s, [], none, false⟩

/-- Go `(*Scanner).Err`: the recorded error, the end of the input not
being one. -/
def Scanner.Err (s : Scanner) : Option ScanErr :=
  if s.err = some ScanErr.EOF then none else s.err

/-- The loop of Go `(*Scanner).Scan` with `ScanLines` as split function,
for at most `fuel` iterations (`none` when they do not end it): split what
the buffer holds; without a token stop if an error is recorded, stop with
`ErrTooLong` if the buffer is full at `MaxScanTokenSize`, and else read.
A read at the end of the input records `EOF`; any other read is taken to
fill the buffer as far as the input and `MaxScanTokenSize` allow (the
sizes of Go's single reads, which depend on the buffer's growth, are not
modelled).  Returns the new scanner and the token (`none` for the result
`false`). -/
def Scanner.scan : Nat → Scanner → Option (Scanner × Option (List Byte))
  | 0, _ => none
  | fuel + 1, s =>
    let found : Scanner × Option (List Byte) :=
      if 0 < s.buf.length || s.err.isSome then
        ({ s with buf := s.buf.drop (ScanLines s.buf s.err.isSome).1 },
         (ScanLines s.buf s.err.isSome).2)
      else (s, none)
    match found with
    | (s1, some token) => some (s1, some token)
    | (s1, none) =>
      if s1.err.isSome then some ({ s1 with buf := [] }, none)
      else if MaxScanTokenSize ≤ s1.buf.length then
        some ({ s1 with err := some ScanErr.ErrTooLong }, none)
      else if s1.src.length = 0 then Scanner.scan fuel { s1 with err := some ScanErr.EOF }
      else
        let n := min (MaxScanTokenSize - s1.buf.length) s1.src.length
        Scanner.scan fuel { s1 with buf := s1.buf ++ s1.src.take n, src := s1.src.drop n }

/-- Go `(*Scanner).Scan`: every iteration of its loop that does not end it
reads at least one byte or records the end of the input, so
`len(src) + 2` iterations always suffice (`Scan_total`). -/
def Scanner.Scan (s : Scanner) : Option (Scanner × Option (List Byte)) :=
  if s.done then some (s, none) else s.scan (s.src.length + 2)

/-- The marker `checkOutput` looks for. -/
def media : GoString := ascii "media"

/-- The body of `checkOutput`: the `for scanner.Scan()` loop, run for at
most `fuel` calls of `Scan`.  Returns what was printed and the scanner the
loop ended with, or `none` when `fuel` calls did not end the loop. -/
def scanLoop : Nat → Scanner → Option (List GoString × Scanner)
  | 0, _ => none
  | fuel + 1, scanner =>
    match scanner.Scan with
    | none => none
    | some (scanner1, none) => some ([], scanner1)
    | some (scanner1, some line) =>
      match scanLoop fuel scanner1 with
      | none => none
      | some (out, final) =>
        if Contains line media then
          some (Println [ascii "Read line:", line] :: out, final)
        else some (out, final)

/-- Go `checkOutput(s)`, with the scanner it ends with: every successful
`Scan` consumes at least one byte, so `len(s) + 1` calls always suffice
(`scanLoop_total`). -/
def checkOutputRun (s : GoString) : Option (List GoString × Scanner) :=
  scanLoop (s.length + 1) (NewScanner s)

/-- Go `checkOutput(s)`: the writes it makes to standard output. -/
def checkOutput (s : GoString) : List GoString :=
  match checkOutputRun s with
  | some (out, _) => out
  | none => []

/-! ## The collaborators -/

/-- A Go `error` value: `none` is `nil`, `some msg` an error whose
`Error()` is `msg`. -/
abbrev GoError := Option GoString

deriving instance DecidableEq for Except

/-- Go `restclient.Config`: the connection handle built from the
configuration file at `kubeconfig`. -/
structure Config where
  kubeconfig : GoString
  deriving DecidableEq, Repr

/-- Go `kubernetes.Clientset`, built from a connection handle, with what
its REST client gives a request: the timeout of its HTTP client, `none`
when it is zero. -/
structure Clientset where
  config : Config
  timeout : Option GoString
  deriving DecidableEq, Repr

/-- Go `v1.Container`, the fields the program sets. -/
structure Container where
  Name : GoString
  Image : GoString
  deriving DecidableEq, Repr

/-- Go `v1.Pod`, the fields the program sets or reads: `ObjectMeta.Name`,
`Spec.Containers` and `Status.Phase`. -/
structure Pod where
  Name : GoString
  Containers : List Container
  Phase : GoString
  deriving DecidableEq, Repr

/-- Go `v1.PodRunning`. -/
def PodRunning : GoString := ascii "Running"

/-- Go `v1.PodExecOptions`. -/
structure PodExecOptions where
  Stdin : Bool
  Stdout : Bool
  Stderr : Bool
  TTY : Bool
  Container : GoString := []
  Command : List GoString
  deriving DecidableEq, Repr

/-- Go `url.Values`: the values of each key. -/
abbrev Values := List (GoString × List GoString)

/-- Go `v[key]`: the values of `key`, none when the key is absent. -/
def Values.index : Values → GoString → List GoString
  | [], _ => []
  | (k, vs) :: rest, key => if k = key then vs else Values.index rest key

/-- Go `v[key] = vs`. -/
def Values.assign (v : Values) (key : GoString) (vs : List GoString) : Values :=
  (key, vs) :: v.filter (fun kv => kv.1 ≠ key)

/-- Go `url.Values.Add`. -/
def Values.Add (v : Values) (key value : GoString) : Values :=
  Values.assign v key (Values.index v key ++ [value])

/-- Go `url.Values.Set`. -/
def Values.Set (v : Values) (key value : GoString) : Values :=
  Values.assign v key [value]

/-- Go `queryparams.addParam` for a field or list element printed as
`text`, zero when `zero` holds: a zero value tagged `omitempty` is left
out, and a value printed as `<nil>` is added as the empty string. -/
def addParam (values : Values) (tag : GoString) (omitempty zero : Bool) (text : GoString) :
    Values :=
  if omitempty && zero then values
  else Values.Add values tag (if text ≠ ascii "<nil>" then text else [])

/-- Go `fmt.Sprintf("%v", b)` for a boolean. -/
def formatBool (b : Bool) : GoString := if b then ascii "true" else ascii "false"

/-- Go `queryparams.Convert` on a `v1.PodExecOptions`, which is what
`scheme.ParameterCodec` encodes it to: the fields in order, those tagged
`omitempty` (all but `Command`) through `addParam`, and every element of
`Command` through `addParam` without `omitempty`. -/
def EncodeParameters (o : PodExecOptions) : Values :=
  let v : Values := []
  let v := addParam v (ascii "stdin") true (!o.Stdin) (formatBool o.Stdin)
  let v := addParam v (ascii "stdout") true (!o.Stdout) (formatBool o.Stdout)
  let v := addParam v (ascii "stderr") true (!o.Stderr) (formatBool o.Stderr)
  let v := addParam v (ascii "tty") true (!o.TTY) (formatBool o.TTY)
  let v := addParam v (ascii "container") true (o.Container.length == 0) o.Container
  o.Command.foldl (fun v c => addParam v (ascii "command") false (c.length == 0) c) v

/-- Go `path.IsValidPathSegmentName`: the reasons a name cannot be a path
segment. -/
def IsValidPathSegmentName (name : GoString) : List GoString :=
  if name = ascii "." then [ascii "may not be '.'"]
  else if name = ascii ".." then [ascii "may not be '..'"]
  else
    (if Contains name (ascii "/") then [ascii "may not contain '/'"] else [])
      ++ (if Contains name (ascii "%") then [ascii "may not contain '%'"] else [])

/-- The error a `rest.Request` records while it is built. -/
inductive RequestError
  | alreadySet (field : GoString)
  | emptyName
  | invalid (field : GoString) (msgs : List GoString)
  deriving DecidableEq, Repr

/-- Go `rest.Request`, the fields `ExecCmdExample` goes through: the REST
client, the verb, the namespace and whether it was set, the resource, its
name, the subresource, the query parameters, and the error recorded by
the builder. -/
structure Request where
  c : Clientset
  verb : GoString
  namespaceSet : Bool
  ns : GoString
  resource : GoString
  resourceName : GoString
  subresource : GoString
  params : Values
  err : Option RequestError
  deriving DecidableEq, Repr

/-- Go `rest.NewRequest(c)`. -/
def NewRequest (c : Clientset) : Request :=
  { c := c, verb := [], namespaceSet := false, ns := [], resource := [], resourceName := [],
    subresource := [], params := [], err := none }

/-- Go `(*Request).Verb`. -/
def Request.Verb (r : Request) (verb : GoString) : Request := { r with verb := verb }

/-- Go `(*RESTClient).Post`. -/
def Post (c : Clientset) : Request := (NewRequest c).Verb (ascii "POST")

/-- Go `(*Request).Resource`. -/
def Request.Resource (r : Request) (resource : GoString) : Request :=
  if r.err.isSome then r
  else if r.resource.length ≠ 0 then
    { r with err := some (RequestError.alreadySet (ascii "resource")) }
  else if (IsValidPathSegmentName resource).length ≠ 0 then
    { r with err := (some (RequestError.invalid (ascii "resource")
        (IsValidPathSegmentName resource))) }
  else { r with resource := resource }

/-- Go `(*Request).Name`. -/
def Request.Name (r : Request) (resourceName : GoString) : Request :=
  if r.err.isSome then r
  else if resourceName.length = 0 then { r with err := some RequestError.emptyName }
  else if r.resourceName.length ≠ 0 then
    { r with err := some (RequestError.alreadySet (ascii "resource name")) }
  else if (IsValidPathSegmentName resourceName).length ≠ 0 then
    { r with err := (some (RequestError.invalid (ascii "resource name")
        (IsValidPathSegmentName resourceName))) }
  else { r with resourceName := resourceName }

/-- Go `(*Request).Namespace`. -/
def Request.Namespace (r : Request) (ns : GoString) : Request :=
  if r.err.isSome then r
  else if r.namespaceSet then
    { r with err := some (RequestError.alreadySet (ascii "namespace")) }
  else if (IsValidPathSegmentName ns).length ≠ 0 then
    { r with err := (some (RequestError.invalid (ascii "namespace")
        (IsValidPathSegmentName ns))) }
  else { r with namespaceSet := true, ns := ns }

/-- Go `(*Request).SubResource` with one subresource (`path.Join` of one
accepted segment is the segment). -/
def Request.SubResource (r : Request) (subresource : GoString) : Request :=
  if r.err.isSome then r
  else if r.subresource.length ≠ 0 then
    { r with err := some (RequestError.alreadySet (ascii "subresource")) }
  else if (IsValidPathSegmentName subresource).length ≠ 0 then
    { r with err := (some (RequestError.invalid (ascii "subresource")
        (IsValidPathSegmentName subresource))) }
  else { r with subresource := subresource }

/-- Go `(*Request).VersionedParams(obj, scheme.ParameterCodec)` on a
`v1.PodExecOptions`, which the codec always encodes: after an error of the
builder nothing is added, else the encoded values are appended to the
parameters key by key. -/
def Request.VersionedParams (r : Request) (obj : PodExecOptions) : Request :=
  if r.err.isSome then r
  else
    { r with params := ((EncodeParameters obj).foldl
        (fun params kv => Values.assign params kv.1 (Values.index params kv.1 ++ kv.2))
        r.params) }

/-- Go `strings.ToLower` on an ASCII string. -/
def ToLower (s : GoString) : GoString :=
  s.map (fun b => if 65 ≤ b ∧ b ≤ 90 then b + 32 else b)

/-- Go `url.URL` as `(*Request).URL` builds it: the REST client, whose base
and path prefix the URL starts with, the path elements joined after the
prefix, and the query values (kept as values, not encoded). -/
structure URL where
  client : Clientset
  Path : List GoString
  Query : Values
  deriving DecidableEq, Repr

/-- Go `(*Request).URL`: the path is joined from the namespace when it is
set and not empty, the resource in lower case, and the resource name and
subresource (`path.Join` drops empty elements); the query holds the
parameters and the timeout of the client when it has one.  An error
recorded by the builder is not looked at. -/
def Request.URL (r : Request) : URL :=
  let p : List GoString := []
  let p := if r.namespaceSet && 0 < r.ns.length then p ++ [ascii "namespaces", r.ns] else p
  let p := if r.resource.length ≠ 0 then p ++ [ToLower r.resource] else p
  let p :=
    if r.resourceName.length ≠ 0 || r.subresource.length ≠ 0 then
      p ++ [r.resourceName, r.subresource].filter (fun e => e ≠ [])
    else p
  let query : Values :=
    r.params.foldl (fun q kv => kv.2.foldl (fun q value => Values.Add q kv.1 value) q) []
  let query :=
    match r.c.timeout with
    | some t => Values.Set query (ascii "timeout") t
    | none => query
  { client := r.c, Path := p, Query := query }

/-- An `io.Reader` handed to the remote-command stream. -/
structure Reader where
  content : GoString
  deriving DecidableEq, Repr

/-- The answers of everything outside the program.  `Get k` answers the
`k`-th `Get` call of the run, counting from zero; `Stream` gives the bytes
the remote command writes to the stdout writer and the stream's error. -/
structure World where
  Join : List GoString → GoString
  BuildConfigFromFlags : GoString → GoString → Except GoString Config
  NewForConfig : Config → Except GoString Clientset
  Create : GoString → Pod → Except GoString Pod
  Get : Nat → GoString → GoString → Except GoString Pod
  NewSPDYExecutor : Config → GoString → URL → GoError
  Stream : URL → Option Reader → GoString × GoError
  Delete : GoString → GoString → GoError

/-- What the process is started with: the home directory reported by
`homedir.HomeDir()`, the value of `--kubeconfig` on the command line when
the flag is given, and standard input. -/
structure Process where
  home : GoString
  kubeconfigFlag : Option GoString
  Stdin : Reader

/-- One observable step of a run: a call to a collaborator with its
arguments and the error it returned, a write to standard output, a sleep,
or the call of `checkOutput`. -/
inductive Event
  | Println (text : GoString)
  | BuildConfigFromFlags (masterUrl kubeconfigPath : GoString) (err : GoError)
  | NewForConfig (config : Config) (err : GoError)
  | Create (ns : GoString) (pod : Pod) (err : GoError)
  | Get (ns name : GoString) (resp : Except GoString Pod)
  | Sleep (seconds : Nat)
  | NewSPDYExecutor (config : Config) (method : GoString) (url : URL) (err : GoError)
  | Stream (url : URL) (stdin : Option Reader) (err : GoError)
  | checkOutput (s : GoString)
  | Delete (ns name : GoString) (err : GoError)
  deriving DecidableEq, Repr

/-- How a run ends: `main` returns, it panics with a message, or it is
still inside the readiness loop after the iterations it was given. -/
inductive Outcome
  | returned
  | panicked (msg : GoString)
  | polling
  deriving DecidableEq, Repr

/-- A run of `main`: its steps in order and how it ends. -/
structure Run where
  trace : List Event
  outcome : Outcome
  deriving DecidableEq, Repr

/-! ## The program -/

/-- Go `ExecCmdExample(client, config, podName, namespace, command, stdin,
stdout, stderr)`: its steps, the bytes written to `stdout`, and the error
it returns.  The client is a `kubernetes.Clientset`, the one kind `main`
passes. -/
def ExecCmdExample (w : World) (client : Clientset) (config : Config)
    (podName ns command : GoString) (stdin : Option Reader) :
    List Event × GoString × GoError :=
  let cmd := [ascii "sh", ascii "-c", command]
  let req := ((((Post client).Resource (ascii "pods")).Name podName).Namespace ns).SubResource
    (ascii "exec")
  let option : PodExecOptions :=
    { Command := cmd, Stdin := true, Stdout := true, Stderr := true, TTY := true }
  let option := if stdin = none then { option with Stdin := false } else option
  let req := req.VersionedParams option
  match w.NewSPDYExecutor config (ascii "POST") req.URL with
  | some err => ([Event.NewSPDYExecutor config (ascii "POST") req.URL (some err)], [], some err)
  | none =>
    match w.Stream req.URL stdin with
    | (written, some err) =>
      ([Event.NewSPDYExecutor config (ascii "POST") req.URL none,
        Event.Stream req.URL stdin (some err)], written, some err)
    | (written, none) =>
      ([Event.NewSPDYExecutor config (ascii "POST") req.URL none,
        Event.Stream req.URL stdin none], written, none)

/-- How the readiness loop ends. -/
inductive LoopExit
  | broke
  | panicked (msg : GoString)
  | polling
  deriving DecidableEq, Repr

/-- The readiness loop of `main` (`for { ... }`), run for at most `fuel`
iterations, `k` being the number of `Get` calls made before. -/
def readinessLoop (w : World) : Nat → Nat → List Event × LoopExit
  | 0, _ => ([], LoopExit.polling)
  | fuel + 1, k =>
    match w.Get k (ascii "nginx") (ascii "new-pod") with
    | Except.error err =>
      ([Event.Get (ascii "nginx") (ascii "new-pod") (Except.error err)], LoopExit.panicked err)
    | Except.ok pod =>
      let phase := pod.Phase
      let steps := [Event.Get (ascii "nginx") (ascii "new-pod") (Except.ok pod),
                    Event.Println (Println [ascii "Pod phase ", phase])]
      if phase = PodRunning then (steps, LoopExit.broke)
      else
        let (more, exit) := readinessLoop w fuel (k + 1)
        (steps ++ [Event.Sleep 1] ++ more, exit)

/-- Go `flag.String("kubeconfig", value, usage)` followed by `flag.Parse()`
and a read of the flag: the command-line value when the flag is given,
else the default `value`. -/
def flagString (p : Process) (value : GoString) : GoString :=
  match p.kubeconfigFlag with
  | some given => given
  | none => value

/-- The pod `main` creates. -/
def podSpec : Pod :=
  { Name := ascii "new-pod",
    Containers := [{ Name := ascii "nginx", Image := ascii "nginx" }],
    Phase := [] }

/-- Go `main()`, with at most `fuel` iterations of the readiness loop. -/
def main (w : World) (p : Process) (fuel : Nat) : Run :=
  let kubeconfig :=
    if p.home ≠ [] then flagString p (w.Join [p.home, ascii ".kube", ascii "config"])
    else flagString p []
  match w.BuildConfigFromFlags [] kubeconfig with
  | Except.error err =>
    ⟨[Event.BuildConfigFromFlags [] kubeconfig (some err)], Outcome.panicked err⟩
  | Except.ok config =>
  let t1 := [Event.BuildConfigFromFlags [] kubeconfig none]
  match w.NewForConfig config with
  | Except.error err => ⟨t1 ++ [Event.NewForConfig config (some err)], Outcome.panicked err⟩
  | Except.ok clientset =>
  let t2 := t1 ++ [Event.NewForConfig config none, Event.Println (Println [ascii "Creating pod"])]
  match w.Create (ascii "nginx") podSpec with
  | Except.error err =>
    ⟨t2 ++ [Event.Create (ascii "nginx") podSpec (some err)], Outcome.panicked err⟩
  | Except.ok pod =>
  let t3 := t2 ++ [Event.Create (ascii "nginx") podSpec none,
                   Event.Println (Println [pod.Name]),
                   Event.Println (Println [ascii "Waiting for pod readiness"])]
  match readinessLoop w fuel 0 with
  | (loop, LoopExit.polling) => ⟨t3 ++ loop, Outcome.polling⟩
  | (loop, LoopExit.panicked err) => ⟨t3 ++ loop, Outcome.panicked err⟩
  | (loop, LoopExit.broke) =>
  let t4 := t3 ++ loop
  match ExecCmdExample w clientset config (ascii "new-pod") (ascii "nginx") (ascii "ls -l")
      (some p.Stdin) with
  | (steps, _, some err) => ⟨t4 ++ steps, Outcome.panicked err⟩
  | (steps, buffer, none) =>
  let t5 := t4 ++ steps ++ [Event.checkOutput buffer]
    ++ (checkOutput buffer).map Event.Println
    ++ [Event.Println (Println [ascii "Deleting pod"])]
  match w.Delete (ascii "nginx") (ascii "new-pod") with
  | some err =>
    ⟨t5 ++ [Event.Delete (ascii "nginx") (ascii "new-pod") (some err)], Outcome.panicked err⟩
  | none => ⟨t5 ++ [Event.Delete (ascii "nginx") (ascii "new-pod") none], Outcome.returned⟩

/-! ## Reading a run -/

/-- The remote calls of the workflow. -/
inductive RemoteCall
  | create
  | get
  | exec
  | delete
  deriving DecidableEq, Repr

/-- The remote call a step makes, if it makes one: `Create`, `Get` and
`Delete` on the pod collection, and the exec stream. -/
def Event.remoteCall : Event → Option RemoteCall
  | Event.Create _ _ _ => some RemoteCall.create
  | Event.Get _ _ _ => some RemoteCall.get
  | Event.Stream _ _ _ => some RemoteCall.exec
  | Event.Delete _ _ _ => some RemoteCall.delete
  | _ => none

/-- The remote calls of a trace, in order. -/
def remoteCalls (t : List Event) : List RemoteCall := t.filterMap Event.remoteCall

/-- The error a step returned, if it returned one. -/
def Event.err : Event → GoError
  | Event.BuildConfigFromFlags _ _ e => e
  | Event.NewForConfig _ e => e
  | Event.Create _ _ e => e
  | Event.Get _ _ (Except.error e) => some e
  | Event.NewSPDYExecutor _ _ _ e => e
  | Event.Stream _ _ e => e
  | Event.Delete _ _ e => e
  | _ => none

/-- The steps of one iteration of the readiness loop up to the phase test,
for a `Get` answered with `pod`. -/
def pollRound (pod : Pod) : List Event :=
  [Event.Get (ascii "nginx") (ascii "new-pod") (Except.ok pod),
   Event.Println (Println [ascii "Pod phase ", pod.Phase])]

/-- The steps of the iterations that saw the pods `pods`, none of them
running: each is followed by a sleep of one second. -/
def pendingRounds (pods : List Pod) : List Event :=
  pods.flatMap (fun pod => pollRound pod ++ [Event.Sleep 1])

/-- Whether a step is a one-second sleep. -/
def Event.isSleep : Event → Bool
  | Event.Sleep _ => true
  | _ => false

/-- Whether a step belongs to what follows the readiness loop: the exec
step, the output filter, or the delete call. -/
def Event.afterLoop : Event → Bool
  | Event.NewSPDYExecutor _ _ _ _ => true
  | Event.Stream _ _ _ => true
  | Event.checkOutput _ => true
  | Event.Delete _ _ _ => true
  | _ => false

/-- The URL `ExecCmdExample` hands to the executor. -/
def execURL (client : Clientset) (podName ns command : GoString) (stdin : Option Reader) : URL :=
  Request.URL (Request.VersionedParams
    (((((Post client).Resource (ascii "pods")).Name podName).Namespace ns).SubResource
      (ascii "exec"))
    (if stdin = none then
      { Command := [ascii "sh", ascii "-c", command], Stdin := false, Stdout := true,
        Stderr := true, TTY := true }
    else
      { Command := [ascii "sh", ascii "-c", command], Stdin := true, Stdout := true,
        Stderr := true, TTY := true }))

/-- The pod a `Get` step was answered with. -/
def Event.gotPod : Event → Option Pod
  | Event.Get _ _ (Except.ok pod) => some pod
  | _ => none

/-- The steps of `main` up to the readiness loop when nothing fails:
configuration built from `kubeconfig`, client constructed, pod created
and answered with `created`. -/
def setupSteps (kubeconfig : GoString) (config : Config) (created : Pod) : List Event :=
  [Event.BuildConfigFromFlags [] kubeconfig none,
   Event.NewForConfig config none,
   Event.Println (Println [ascii "Creating pod"]),
   Event.Create (ascii "nginx") podSpec none,
   Event.Println (Println [created.Name]),
   Event.Println (Println [ascii "Waiting for pod readiness"])]

/-- The steps of `main` after a successful exec that wrote `buffer`, up
to and including the delete call that returned `err`. -/
def teardownSteps (buffer : GoString) (err : GoError) : List Event :=
  [Event.checkOutput buffer] ++ (checkOutput buffer).map Event.Println
    ++ [Event.Println (Println [ascii "Deleting pod"]),
        Event.Delete (ascii "nginx") (ascii "new-pod") err]

/-- The shapes a run of `main` can take, one for each place it can end. -/
inductive RunShape (w : World) (p : Process) (fuel : Nat) : Run → Prop
  | configError (kubeconfig err : GoString) :
    RunShape w p fuel
      ⟨[Event.BuildConfigFromFlags [] kubeconfig (some err)], Outcome.panicked err⟩
  | clientError (kubeconfig : GoString) (config : Config) (err : GoString) :
    RunShape w p fuel
      ⟨[Event.BuildConfigFromFlags [] kubeconfig none, Event.NewForConfig config (some err)],
       Outcome.panicked err⟩
  | createError (kubeconfig : GoString) (config : Config) (err : GoString) :
    RunShape w p fuel
      ⟨[Event.BuildConfigFromFlags [] kubeconfig none, Event.NewForConfig config none,
        Event.Println (Println [ascii "Creating pod"]),
        Event.Create (ascii "nginx") podSpec (some err)],
       Outcome.panicked err⟩
  | polling (kubeconfig : GoString) (config : Config) (created : Pod) (pods : List Pod)
      (hloop : readinessLoop w fuel 0 = (pendingRounds pods, LoopExit.polling))
      (hpend : ∀ pod ∈ pods, pod.Phase ≠ PodRunning) (hlen : pods.length = fuel) :
    RunShape w p fuel
      ⟨setupSteps kubeconfig config created ++ pendingRounds pods, Outcome.polling⟩
  | getError (kubeconfig : GoString) (config : Config) (created : Pod) (pods : List Pod)
      (err : GoString)
      (hloop : readinessLoop w fuel 0
        = (pendingRounds pods
            ++ [Event.Get (ascii "nginx") (ascii "new-pod") (Except.error err)],
           LoopExit.panicked err))
      (hpend : ∀ pod ∈ pods, pod.Phase ≠ PodRunning) :
    RunShape w p fuel
      ⟨setupSteps kubeconfig config created
        ++ (pendingRounds pods
          ++ [Event.Get (ascii "nginx") (ascii "new-pod") (Except.error err)]),
       Outcome.panicked err⟩
  | executorError (kubeconfig : GoString) (config : Config) (created : Pod)
      (pods : List Pod) (last : Pod) (req : URL) (err : GoString)
      (hloop : readinessLoop w fuel 0 = (pendingRounds pods ++ pollRound last, LoopExit.broke))
      (hpend : ∀ pod ∈ pods, pod.Phase ≠ PodRunning) (hlast : last.Phase = PodRunning) :
    RunShape w p fuel
      ⟨setupSteps kubeconfig config created ++ (pendingRounds pods ++ pollRound last)
        ++ [Event.NewSPDYExecutor config (ascii "POST") req (some err)],
       Outcome.panicked err⟩
  | streamError (kubeconfig : GoString) (config : Config) (created : Pod)
      (pods : List Pod) (last : Pod) (req : URL) (err : GoString)
      (hloop : readinessLoop w fuel 0 = (pendingRounds pods ++ pollRound last, LoopExit.broke))
      (hpend : ∀ pod ∈ pods, pod.Phase ≠ PodRunning) (hlast : last.Phase = PodRunning) :
    RunShape w p fuel
      ⟨setupSteps kubeconfig config created ++ (pendingRounds pods ++ pollRound last)
        ++ [Event.NewSPDYExecutor config (ascii "POST") req none,
            Event.Stream req (some p.Stdin) (some err)],
       Outcome.panicked err⟩
  | deleteError (kubeconfig : GoString) (config : Config) (created : Pod)
      (pods : List Pod) (last : Pod) (req : URL) (buffer err : GoString)
      (hloop : readinessLoop w fuel 0 = (pendingRounds pods ++ pollRound last, LoopExit.broke))
      (hpend : ∀ pod ∈ pods, pod.Phase ≠ PodRunning) (hlast : last.Phase = PodRunning) :
    RunShape w p fuel
      ⟨setupSteps kubeconfig config created ++ (pendingRounds pods ++ pollRound last)
        ++ [Event.NewSPDYExecutor config (ascii "POST") req none,
            Event.Stream req (some p.Stdin) none]
        ++ teardownSteps buffer (some err),
       Outcome.panicked err⟩
  | returned (kubeconfig : GoString) (config : Config) (created : Pod)
      (pods : List Pod) (last : Pod) (req : URL) (buffer : GoString)
      (hloop : readinessLoop w fuel 0 = (pendingRounds pods ++ pollRound last, LoopExit.broke))
      (hpend : ∀ pod ∈ pods, pod.Phase ≠ PodRunning) (hlast : last.Phase = PodRunning) :
    RunShape w p fuel
      ⟨setupSteps kubeconfig config created ++ (pendingRounds pods ++ pollRound last)
        ++ [Event.NewSPDYExecutor config (ascii "POST") req none,
            Event.Stream req (some p.Stdin) none]
        ++ teardownSteps buffer none,
       Outcome.returned⟩

/-! ## The output filter, as the specification words it -/

/-- The lines of a buffer after the run `cur` already read: a line is a
run of bytes ended by a newline, or by the end of input when the run is
not empty. -/
def specLinesFrom : List Byte → List Byte → List (List Byte)
  | [], cur => if cur = [] then [] else [cur]
  | b :: rest, cur => if b = 10 then cur :: specLinesFrom rest [] else specLinesFrom rest (cur ++ [b])

/-- The lines of a buffer. -/
def specLines (buffer : GoString) : List (List Byte) := specLinesFrom buffer []

/-- The output filter of the specification: the lines of the buffer that
contain the marker, each printed as it stands, in order. -/
def specCheckOutput (buffer : GoString) : List GoString :=
  ((specLines buffer).filter (fun line => Contains line media)).map
    (fun line => Println [ascii "Read line:", line])

/-- What `checkOutput` prints for the tokens `tokens`: a line for each
token that contains the marker. -/
def printed (tokens : List (List Byte)) : List GoString :=
  (tokens.filter (fun line => Contains line media)).map
    (fun line => Println [ascii "Read line:", line])

/-- A buffer whose first line is `MaxScanTokenSize` bytes long and whose
second line is `media`. -/
def overlongBuffer : GoString :=
  List.replicate MaxScanTokenSize 120 ++ 10 :: (media ++ [10])

/-! ## Sample worlds -/

/-- A world in which every call succeeds: the `Get` calls answer with the
phases of `phases` in turn and with `Running` once they are used up, and
the remote command writes `output`. -/
def sampleWorld (phases : List GoString) (output : GoString) : World :=
  { Join := fun parts => List.intercalate [47] parts,
    BuildConfigFromFlags := fun _ path => Except.ok ⟨path⟩,
    NewForConfig := fun config => Except.ok ⟨config, none⟩,
    Create := fun _ pod => Except.ok pod,
    Get := fun k _ name =>
      Except.ok { Name := name, Containers := [], Phase := (phases.get? k).getD PodRunning },
    NewSPDYExecutor := fun _ _ _ => none,
    Stream := fun _ _ => (output, none),
    Delete := fun _ _ => none }

/-- The world of the scenario: phases `Pending`, `Pending`, `Running`,
and the listing `total 0`, `media`, `bin` as output of the command. -/
def scenarioWorld : World :=
  sampleWorld [ascii "Pending", ascii "Pending"] (ascii "total 0\nmedia\nbin\n")

/-- A world whose pod stays `Pending` for ever. -/
def pendingWorld : World :=
  { scenarioWorld with
    Get := fun _ _ name => Except.ok { Name := name, Containers := [], Phase := ascii "Pending" } }

/-- The scenario's world with a failing exec stream. -/
def brokenStreamWorld : World :=
  { scenarioWorld with Stream := fun _ _ => ([], some (ascii "stream closed")) }

/-- The scenario's world with a failing delete call. -/
def brokenDeleteWorld : World :=
  { scenarioWorld with Delete := fun _ _ => some (ascii "forbidden") }

/-- A process started with `--kubeconfig ./fake-kubeconfig`. -/
def sampleProcess : Process :=
  { home := ascii "/root", kubeconfigFlag := some (ascii "./fake-kubeconfig"), Stdin := ⟨[]⟩ }

/-- The pod the sample worlds answer the `k`-th `Get` with. -/
def scenarioPod (k : Nat) : Pod :=
  { Name := ascii "new-pod", Containers := [],
    Phase := if k < 2 then ascii "Pending" else PodRunning }

/-- The connection handle the sample worlds build in the sample process. -/
def sampleConfig : Config := ⟨ascii "./fake-kubeconfig"⟩

/-- The client the sample worlds construct in the sample process. -/
def sampleClient : Clientset := ⟨sampleConfig, none⟩

/-- Whether a URL tells the remote side that stdin is enabled: its query
holds `stdin=true`. -/
def stdinEnabled (url : URL) : Prop := Values.index url.Query (ascii "stdin") = [ascii "true"]

/-- The URL of the exec request `main` builds in the sample process. -/
def sampleURL : URL :=
  { client := sampleClient,
    Path := [ascii "namespaces", ascii "nginx", ascii "pods", ascii "new-pod", ascii "exec"],
    Query := [(ascii "command", [ascii "sh", ascii "-c", ascii "ls -l"]),
              (ascii "tty", [ascii "true"]), (ascii "stderr", [ascii "true"]),
              (ascii "stdout", [ascii "true"]), (ascii "stdin", [ascii "true"])] }

/-- The failed exec stream of `brokenStreamWorld`. -/
def failedStream : Event :=
  Event.Stream sampleURL (some ⟨[]⟩) (some (ascii "stream closed"))

end GoK8s

namespace GoK8s

/-! ## The line scanner -/

theorem IndexByte_none (data : List Byte) (c : Byte) (h : c ∉ data) : IndexByte data c = none := by
  induction data with
  | nil => rfl
  | cons b rest ih =>
    have hb : b ≠ c := fun hbc => h (by simp [hbc])
    have hrest : c ∉ rest := fun hc => h (by simp [hc])
    simp [IndexByte, hb, ih hrest]

theorem IndexByte_append (l rest : List Byte) (c : Byte) (h : c ∉ l) :
    IndexByte (l ++ c :: rest) c = some l.length := by
  induction l with
  | nil => simp [IndexByte]
  | cons b l ih =>
    have hb : b ≠ c := fun hbc => h (by simp [hbc])
    have hl : c ∉ l := fun hc => h (by simp [hc])
    simp [IndexByte, hb, ih hl]

/-- A buffer either has no newline or splits at its first newline. -/
theorem split_first_newline (data : List Byte) :
    (10 : Byte) ∉ data ∨ ∃ l rest, data = l ++ 10 :: rest ∧ (10 : Byte) ∉ l := by
  induction data with
  | nil => exact Or.inl (by simp)
  | cons b data ih =>
    by_cases hb : b = 10
    · exact Or.inr ⟨[], data, by simp [hb], by simp⟩
    · rcases ih with h | ⟨l, rest, hsplit, hl⟩
      · exact Or.inl (by simp [h, Ne.symm hb])
      · exact Or.inr ⟨b :: l, rest, by simp [hsplit], by simp [hl, Ne.symm hb]⟩

/-- The split at the first newline is unique. -/
theorem split_first_newline_unique : ∀ (l1 l2 r1 r2 : List Byte),
    (10 : Byte) ∉ l1 → (10 : Byte) ∉ l2 → l1 ++ 10 :: r1 = l2 ++ 10 :: r2 →
    l1 = l2 ∧ r1 = r2 := by
  intro l1
  induction l1 with
  | nil =>
    intro l2 r1 r2 _ h2 h
    cases l2 with
    | nil => simpa using h
    | cons b l2 =>
      simp only [List.nil_append, List.cons_append, List.cons.injEq] at h
      exact absurd (by simp [h.1]) h2
  | cons a l1 ih =>
    intro l2 r1 r2 h1 h2 h
    cases l2 with
    | nil =>
      simp only [List.nil_append, List.cons_append, List.cons.injEq] at h
      exact absurd (by simp [h.1]) h1
    | cons b l2 =>
      simp only [List.cons_append, List.cons.injEq] at h
      obtain ⟨hl, hr⟩ := ih l2 r1 r2 (fun hc => h1 (by simp [hc])) (fun hc => h2 (by simp [hc])) h.2
      exact ⟨by rw [h.1, hl], hr⟩

/-- An iteration of `Scan` with a whole line in the buffer returns the
line without its carriage return. -/
theorem scan_token (fuel : Nat) (src l rest : List Byte) (d : Bool) (h : (10 : Byte) ∉ l) :
    Scanner.scan (fuel + 1) ⟨src, l ++ 10 :: rest, none, d⟩
      = some (⟨src, rest, none, d⟩, some (dropCR l)) := by
  have hidx : IndexByte (l ++ 10 :: rest) 10 = some l.length := IndexByte_append _ _ _ h
  simp [Scanner.scan, ScanLines, hidx]

/-- An iteration of `Scan` without a line in the buffer, with room in the
buffer and input left, fills the buffer. -/
theorem scan_fill (fuel : Nat) (src buf : List Byte) (d : Bool) (h : (10 : Byte) ∉ buf)
    (hroom : buf.length < MaxScanTokenSize) (hsrc : src ≠ []) :
    Scanner.scan (fuel + 1) ⟨src, buf, none, d⟩
      = Scanner.scan fuel
          ⟨src.drop (min (MaxScanTokenSize - buf.length) src.length),
           buf ++ src.take (min (MaxScanTokenSize - buf.length) src.length), none, d⟩ := by
  have hidx : IndexByte buf 10 = none := IndexByte_none _ _ h
  have hfull : ¬ MaxScanTokenSize ≤ buf.length := by omega
  have hlen : src.length ≠ 0 := fun h0 => hsrc (List.length_eq_zero.mp h0)
  by_cases hb : buf = []
  · subst hb
    simp [Scanner.scan, hlen, MaxScanTokenSize]
  · have hpos : 0 < buf.length := List.length_pos.mpr hb
    simp [Scanner.scan, ScanLines, hidx, hpos, hfull, hlen]

/-- An iteration of `Scan` without a line in the buffer, with room in the
buffer and no input left, records the end of the input. -/
theorem scan_eof (fuel : Nat) (buf : List Byte) (d : Bool) (h : (10 : Byte) ∉ buf)
    (hroom : buf.length < MaxScanTokenSize) :
    Scanner.scan (fuel + 1) ⟨[], buf, none, d⟩
      = Scanner.scan fuel ⟨[], buf, some ScanErr.EOF, d⟩ := by
  have hidx : IndexByte buf 10 = none := IndexByte_none _ _ h
  have hfull : ¬ MaxScanTokenSize ≤ buf.length := by omega
  by_cases hb : buf = []
  · subst hb
    simp [Scanner.scan, MaxScanTokenSize]
  · have hpos : 0 < buf.length := List.length_pos.mpr hb
    simp [Scanner.scan, ScanLines, hidx, hpos, hfull]

/-- An iteration of `Scan` with a full buffer that holds no line stops
with `ErrTooLong`. -/
theorem scan_full (fuel : Nat) (src buf : List Byte) (d : Bool) (h : (10 : Byte) ∉ buf)
    (hfull : MaxScanTokenSize ≤ buf.length) :
    Scanner.scan (fuel + 1) ⟨src, buf, none, d⟩
      = some (⟨src, buf, some ScanErr.ErrTooLong, d⟩, none) := by
  have hidx : IndexByte buf 10 = none := IndexByte_none _ _ h
  have hpos : 0 < buf.length := by
    have : 0 < MaxScanTokenSize := by decide
    omega
  simp [Scanner.scan, ScanLines, hidx, hpos, hfull]

/-- An iteration of `Scan` after an error with a last line in the buffer
returns it without its carriage return. -/
theorem scan_last (fuel : Nat) (src buf : List Byte) (e : ScanErr) (d : Bool)
    (h : (10 : Byte) ∉ buf) (hne : buf ≠ []) :
    Scanner.scan (fuel + 1) ⟨src, buf, some e, d⟩
      = some (⟨src, [], some e, d⟩, some (dropCR buf)) := by
  have hidx : IndexByte buf 10 = none := IndexByte_none _ _ h
  have hlen : buf.length ≠ 0 := fun h0 => hne (List.length_eq_zero.mp h0)
  simp [Scanner.scan, ScanLines, hidx, hlen]

/-- An iteration of `Scan` after an error with an empty buffer returns
`false`. -/
theorem scan_end (fuel : Nat) (src : List Byte) (e : ScanErr) (d : Bool) :
    Scanner.scan (fuel + 1) ⟨src, [], some e, d⟩ = some (⟨src, [], some e, d⟩, none) := by
  simp [Scanner.scan, ScanLines]

/-- Filling the buffer leaves in it the first `MaxScanTokenSize` bytes of
what was unconsumed. -/
theorem fill_eq (src buf : List Byte) (hlen : buf.length ≤ MaxScanTokenSize) :
    buf ++ src.take (min (MaxScanTokenSize - buf.length) src.length)
        = (buf ++ src).take MaxScanTokenSize
      ∧ src.drop (min (MaxScanTokenSize - buf.length) src.length)
        = (buf ++ src).drop MaxScanTokenSize := by
  have htake : src.take (min (MaxScanTokenSize - buf.length) src.length)
      = src.take (MaxScanTokenSize - buf.length) := by
    rw [List.take_eq_take]
    omega
  have hdrop : src.drop (min (MaxScanTokenSize - buf.length) src.length)
      = src.drop (MaxScanTokenSize - buf.length) := by
    by_cases hle : MaxScanTokenSize - buf.length ≤ src.length
    · rw [Nat.min_eq_left hle]
    · rw [Nat.min_eq_right (by omega), List.drop_length, List.drop_of_length_le (by omega)]
  constructor
  · rw [htake, List.take_append_eq_append_take, List.take_of_length_le hlen]
  · rw [hdrop, List.drop_append_eq_append_drop, List.drop_of_length_le hlen, List.nil_append]

/-- `Scan` with a short first line ended by a newline among the unconsumed
bytes: the token is the line without its carriage return, and what follows
the newline stays unconsumed. -/
theorem Scan_newline (src buf l rest : List Byte) (hbuf : buf.length ≤ MaxScanTokenSize)
    (hdata : buf ++ src = l ++ 10 :: rest) (h : (10 : Byte) ∉ l)
    (hlen : l.length < MaxScanTokenSize) :
    ∃ src1 buf1, Scanner.Scan ⟨src, buf, none, false⟩
        = some (⟨src1, buf1, none, false⟩, some (dropCR l))
      ∧ buf1.length ≤ MaxScanTokenSize ∧ buf1 ++ src1 = rest := by
  rcases split_first_newline buf with hno | ⟨l1, b1, hsplit, hl1⟩
  · -- the newline is not in the buffer yet: fill it
    have hsrc : src ≠ [] := by
      rintro rfl
      rw [List.append_nil] at hdata
      exact hno (by rw [hdata]; simp)
    have hroom : buf.length < MaxScanTokenSize := by
      by_contra hge
      have hpre : buf = (l ++ 10 :: rest).take buf.length := by
        rw [← hdata, List.take_left' rfl]
      have hl : l.length < buf.length := by omega
      apply hno
      rw [hpre, List.take_append_eq_append_take, List.take_of_length_le (by omega)]
      obtain ⟨m, hm⟩ : ∃ m, buf.length - l.length = m + 1 := ⟨buf.length - l.length - 1, by omega⟩
      rw [hm, List.take_succ_cons]
      simp
    obtain ⟨hfill1, hfill2⟩ := fill_eq src buf hbuf
    obtain ⟨m, hm⟩ : ∃ m, MaxScanTokenSize - l.length = m + 1 :=
      ⟨MaxScanTokenSize - l.length - 1, by omega⟩
    have hwin : (buf ++ src).take MaxScanTokenSize = l ++ 10 :: rest.take m := by
      rw [hdata, List.take_append_eq_append_take, List.take_of_length_le (by omega), hm,
        List.take_succ_cons]
    have hrest : (buf ++ src).drop MaxScanTokenSize = rest.drop m := by
      rw [hdata, List.drop_append_eq_append_drop, List.drop_of_length_le (by omega), hm,
        List.nil_append, List.drop_succ_cons]
    refine ⟨rest.drop m, rest.take m, ?_, ?_, List.take_append_drop m rest⟩
    · simp only [Scanner.Scan, Bool.false_eq_true, if_false]
      rw [show src.length + 2 = (src.length + 1) + 1 from rfl, scan_fill _ _ _ _ hno hroom hsrc,
        hfill1, hfill2, hwin, hrest, scan_token _ _ _ _ _ h]
    · rw [List.length_take]
      omega
  · -- the newline is in the buffer
    subst hsplit
    have hdata2 : l1 ++ 10 :: (b1 ++ src) = l ++ 10 :: rest := by
      rw [← hdata]; simp
    obtain ⟨hl, hr⟩ := split_first_newline_unique _ _ _ _ hl1 h hdata2
    subst hl
    refine ⟨src, b1, ?_, ?_, hr⟩
    · simp only [Scanner.Scan, Bool.false_eq_true, if_false]
      rw [show src.length + 2 = (src.length + 1) + 1 from rfl, scan_token _ _ _ _ _ hl1]
    · simp at hbuf
      omega

/-- `Scan` with a short last line without newline unconsumed: the token is
the line without its carriage return and the end of the input is recorded. -/
theorem Scan_final (src buf : List Byte) (h : (10 : Byte) ∉ buf ++ src) (hne : buf ++ src ≠ [])
    (hlen : (buf ++ src).length < MaxScanTokenSize) :
    Scanner.Scan ⟨src, buf, none, false⟩
      = some (⟨[], [], some ScanErr.EOF, false⟩, some (dropCR (buf ++ src))) := by
  have hno : (10 : Byte) ∉ buf := fun hc => h (by simp [hc])
  have hroom : buf.length < MaxScanTokenSize := by simp at hlen; omega
  simp only [Scanner.Scan, Bool.false_eq_true, if_false]
  by_cases hsrc : src = []
  · subst hsrc
    rw [List.append_nil] at hne ⊢
    rw [show ([] : List Byte).length + 2 = 1 + 1 from rfl, scan_eof _ _ _ hno hroom,
      show (1 : Nat) = 0 + 1 from rfl, scan_last _ _ _ _ _ hno hne]
  · obtain ⟨hfill1, hfill2⟩ := fill_eq src buf (by omega)
    have hall : (buf ++ src).take MaxScanTokenSize = buf ++ src :=
      List.take_of_length_le (by omega)
    have hnone : (buf ++ src).drop MaxScanTokenSize = [] :=
      List.drop_of_length_le (by omega)
    obtain ⟨f, hf⟩ : ∃ f, src.length = f + 1 :=
      ⟨src.length - 1, by have := List.length_pos.mpr hsrc; omega⟩
    rw [show src.length + 2 = (src.length + 1) + 1 from rfl, scan_fill _ _ _ _ hno hroom hsrc,
      hfill1, hfill2, hall, hnone, scan_eof _ _ _ h hlen, hf, scan_last _ _ _ _ _ h hne]

/-- `Scan` with nothing unconsumed records the end of the input. -/
theorem Scan_empty :
    Scanner.Scan ⟨[], [], none, false⟩ = some (⟨[], [], some ScanErr.EOF, false⟩, none) := by
  decide

/-- `Scan` when the first `MaxScanTokenSize` unconsumed bytes hold no
newline stops with `ErrTooLong`, these bytes in the buffer. -/
theorem Scan_tooLong (src buf : List Byte) (hbuf : buf.length ≤ MaxScanTokenSize)
    (h : (10 : Byte) ∉ (buf ++ src).take MaxScanTokenSize)
    (hlen : MaxScanTokenSize ≤ (buf ++ src).length) :
    Scanner.Scan ⟨src, buf, none, false⟩
      = some (⟨(buf ++ src).drop MaxScanTokenSize, (buf ++ src).take MaxScanTokenSize,
               some ScanErr.ErrTooLong, false⟩, none) := by
  have hno : (10 : Byte) ∉ buf := by
    intro hc
    apply h
    rw [List.take_append_eq_append_take, List.take_of_length_le hbuf]
    simp [hc]
  simp only [Scanner.Scan, Bool.false_eq_true, if_false]
  by_cases hfull : buf.length = MaxScanTokenSize
  · have h1 : (buf ++ src).take MaxScanTokenSize = buf := List.take_left' hfull
    have h2 : (buf ++ src).drop MaxScanTokenSize = src := List.drop_left' hfull
    rw [h1, h2, show src.length + 2 = (src.length + 1) + 1 from rfl,
      scan_full _ _ _ _ hno (by omega)]
  · have hroom : buf.length < MaxScanTokenSize := by omega
    have hsrc : src ≠ [] := by
      rintro rfl
      simp at hlen
      omega
    obtain ⟨hfill1, hfill2⟩ := fill_eq src buf hbuf
    have hfilled : MaxScanTokenSize ≤ ((buf ++ src).take MaxScanTokenSize).length := by
      rw [List.length_take]
      omega
    rw [show src.length + 2 = (src.length + 1) + 1 from rfl, scan_fill _ _ _ _ hno hroom hsrc,
      hfill1, hfill2, scan_full _ _ _ _ h hfilled]

theorem specLinesFrom_no_newline (l cur : List Byte) (h : (10 : Byte) ∉ l) :
    specLinesFrom l cur = if cur ++ l = [] then [] else [cur ++ l] := by
  induction l generalizing cur with
  | nil => simp [specLinesFrom]
  | cons b l ih =>
    have hb : b ≠ 10 := fun hbc => h (by simp [hbc])
    have hl : (10 : Byte) ∉ l := fun hc => h (by simp [hc])
    simp [specLinesFrom, hb, ih _ hl]

theorem specLinesFrom_newline (l rest cur : List Byte) (h : (10 : Byte) ∉ l) :
    specLinesFrom (l ++ 10 :: rest) cur = (cur ++ l) :: specLinesFrom rest [] := by
  induction l generalizing cur with
  | nil => simp [specLinesFrom]
  | cons b l ih =>
    have hb : b ≠ 10 := fun hbc => h (by simp [hbc])
    have hl : (10 : Byte) ∉ l := fun hc => h (by simp [hc])
    simp [specLinesFrom, hb, ih _ hl]

theorem specLines_no_newline (l : List Byte) (h : (10 : Byte) ∉ l) (hne : l ≠ []) :
    specLines l = [l] := by
  simp [specLines, specLinesFrom_no_newline l [] h, hne]

theorem specLines_newline (l rest : List Byte) (h : (10 : Byte) ∉ l) :
    specLines (l ++ 10 :: rest) = l :: specLines rest := by
  simp [specLines, specLinesFrom_newline l rest [] h]

theorem printed_cons (tok : List Byte) (toks : List (List Byte)) :
    printed (tok :: toks)
      = if Contains tok media then Println [ascii "Read line:", tok] :: printed toks
        else printed toks := by
  by_cases h : Contains tok media = true <;> simp [printed, List.filter_cons, h]

/-- One round of the loop of `checkOutput` around a `Scan` that returned
the token `tok`. -/
theorem scanLoop_step (fuel : Nat) (s s1 final : Scanner) (tok : List Byte)
    (toks : List (List Byte)) (hscan : s.Scan = some (s1, some tok))
    (hrest : scanLoop fuel s1 = some (printed toks, final)) :
    scanLoop (fuel + 1) s = some (printed (tok :: toks), final) := by
  rw [scanLoop, hscan]
  simp only [hrest, printed_cons]
  split <;> rfl

/-- The round of the loop of `checkOutput` in which `Scan` returns `false`. -/
theorem scanLoop_stop (fuel : Nat) (s s1 : Scanner) (h : s.Scan = some (s1, none)) :
    scanLoop (fuel + 1) s = some ([], s1) := by
  rw [scanLoop, h]

/-- `Scan` after an error, the buffer empty, returns `false` and changes
nothing. -/
theorem Scan_after_error (src : List Byte) (e : ScanErr) :
    Scanner.Scan ⟨src, [], some e, false⟩ = some (⟨src, [], some e, false⟩, none) := by
  simp only [Scanner.Scan, Bool.false_eq_true, if_false]
  rw [show src.length + 2 = (src.length + 1) + 1 from rfl, scan_end]

/-- The loop of `checkOutput` over unconsumed bytes whose lines are all
short: it ends at the end of the input without error, having printed the
lines that contain the marker, each without its carriage return. -/
theorem scanLoop_short : ∀ (fuel : Nat) (src buf : List Byte),
    buf.length ≤ MaxScanTokenSize → (buf ++ src).length < fuel →
    (∀ l ∈ specLines (buf ++ src), l.length < MaxScanTokenSize) →
    scanLoop fuel ⟨src, buf, none, false⟩
      = some (printed ((specLines (buf ++ src)).map dropCR),
              ⟨[], [], some ScanErr.EOF, false⟩) := by
  intro fuel
  induction fuel with
  | zero => intro src buf _ h; omega
  | succ fuel ih =>
    intro src buf hbuf hfuel hshort
    rcases split_first_newline (buf ++ src) with hno | ⟨l, rest, hsplit, hl⟩
    · by_cases hnil : buf ++ src = []
      · obtain ⟨hb, hs⟩ := List.append_eq_nil.mp hnil
        subst hb hs
        rw [scanLoop_stop _ _ _ Scan_empty]
        rfl
      · rw [specLines_no_newline _ hno hnil] at hshort ⊢
        have hlen : (buf ++ src).length < MaxScanTokenSize := hshort _ (by simp)
        have hpos : 0 < (buf ++ src).length := List.length_pos.mpr hnil
        obtain ⟨f, rfl⟩ : ∃ f, fuel = f + 1 := ⟨fuel - 1, by omega⟩
        exact scanLoop_step _ _ _ _ _ [] (Scan_final src buf hno hnil hlen)
          (scanLoop_stop _ _ _ (Scan_after_error [] ScanErr.EOF))
    · rw [hsplit, specLines_newline l rest hl] at hshort ⊢
      have hlen : l.length < MaxScanTokenSize := hshort l (by simp)
      obtain ⟨src1, buf1, hscan, hbuf1, hdata1⟩ := Scan_newline src buf l rest hbuf hsplit hl hlen
      have hrec := ih src1 buf1 hbuf1
        (by rw [hdata1]; rw [hsplit] at hfuel; simp at hfuel; omega)
        (by rw [hdata1]; exact fun x hx => hshort x (by simp [hx]))
      rw [hdata1] at hrec
      exact scanLoop_step _ _ _ _ _ _ hscan hrec

theorem checkOutputRun_short (buf : GoString)
    (hshort : ∀ l ∈ specLines buf, l.length < MaxScanTokenSize) :
    checkOutputRun buf
      = some (printed ((specLines buf).map dropCR), ⟨[], [], some ScanErr.EOF, false⟩) := by
  have h := scanLoop_short (buf.length + 1) buf [] (by simp) (by simp) (by simpa using hshort)
  simpa [checkOutputRun, NewScanner] using h

/-- The loop of `checkOutput` over short lines `ls`, each ended by a
newline, followed by bytes `long` whose first `MaxScanTokenSize` hold no
newline: it prints what it prints for `ls` and stops with `ErrTooLong`,
these first bytes of `long` in the buffer and the rest unread. -/
theorem scanLoop_long (long : List Byte)
    (hno : (10 : Byte) ∉ long.take MaxScanTokenSize) (hlong : MaxScanTokenSize ≤ long.length) :
    ∀ (ls : List (List Byte)) (fuel : Nat) (src buf : List Byte),
    buf.length ≤ MaxScanTokenSize → ls.length < fuel →
    buf ++ src = ls.flatMap (fun l => l ++ [10]) ++ long →
    (∀ l ∈ ls, (10 : Byte) ∉ l ∧ l.length < MaxScanTokenSize) →
    scanLoop fuel ⟨src, buf, none, false⟩
      = some (printed (ls.map dropCR),
              ⟨long.drop MaxScanTokenSize, long.take MaxScanTokenSize,
               some ScanErr.ErrTooLong, false⟩) := by
  intro ls
  induction ls with
  | nil =>
    intro fuel src buf hbuf hfuel hdata _
    obtain ⟨f, rfl⟩ : ∃ f, fuel = f + 1 := ⟨fuel - 1, by simp at hfuel; omega⟩
    simp only [List.flatMap_nil, List.nil_append] at hdata
    have hscan := Scan_tooLong src buf hbuf (by rw [hdata]; exact hno) (by rw [hdata]; exact hlong)
    rw [hdata] at hscan
    rw [scanLoop_stop _ _ _ hscan]
    rfl
  | cons l ls ih =>
    intro fuel src buf hbuf hfuel hdata hls
    obtain ⟨f, rfl⟩ : ∃ f, fuel = f + 1 := ⟨fuel - 1, by simp at hfuel; omega⟩
    obtain ⟨hl, hlen⟩ := hls l (by simp)
    have hdata2 : buf ++ src = l ++ 10 :: (ls.flatMap (fun l => l ++ [10]) ++ long) := by
      rw [hdata]; simp [List.flatMap_cons]
    obtain ⟨src1, buf1, hscan, hbuf1, hdata1⟩ := Scan_newline src buf l _ hbuf hdata2 hl hlen
    have hrec := ih f src1 buf1 hbuf1 (by simp at hfuel; omega) hdata1
      (fun x hx => hls x (by simp [hx]))
    exact scanLoop_step _ _ _ _ _ _ hscan hrec

theorem length_le_flatMap_newline (ls : List (List Byte)) :
    ls.length ≤ (ls.flatMap (fun l => l ++ [10])).length := by
  induction ls with
  | nil => simp
  | cons l ls ih =>
    simp only [List.flatMap_cons, List.length_append, List.length_cons, List.length_nil]
    omega

theorem checkOutputRun_long (ls : List (List Byte)) (long : List Byte)
    (hls : ∀ l ∈ ls, (10 : Byte) ∉ l ∧ l.length < MaxScanTokenSize)
    (hno : (10 : Byte) ∉ long.take MaxScanTokenSize) (hlong : MaxScanTokenSize ≤ long.length) :
    checkOutputRun (ls.flatMap (fun l => l ++ [10]) ++ long)
      = some (printed (ls.map dropCR),
              ⟨long.drop MaxScanTokenSize, long.take MaxScanTokenSize,
               some ScanErr.ErrTooLong, false⟩) := by
  have hlen := length_le_flatMap_newline ls
  exact scanLoop_long long hno hlong ls _ _ [] (by simp)
    (by rw [List.length_append]; omega) (by simp) hls

/-- A token found by `ScanLines` advances by at least one byte. -/
theorem ScanLines_advance (data : List Byte) (atEOF : Bool) (tok : List Byte)
    (h : (ScanLines data atEOF).2 = some tok) :
    1 ≤ (ScanLines data atEOF).1 ∧ data ≠ [] := by
  unfold ScanLines at h ⊢
  split
  · rename_i hcond
    simp [hcond] at h
  · rename_i hcond
    simp only [hcond, if_false, Bool.false_eq_true] at h
    split
    · rename_i i hidx
      refine ⟨by simp, ?_⟩
      rintro rfl
      simp [IndexByte] at hidx
    · rename_i hidx
      simp only [hidx] at h
      split
      · rename_i hEOF
        have hne : data.length ≠ 0 := by
          intro h0
          apply hcond
          simp [hEOF, h0]
        exact ⟨by simp; omega, fun hnil => hne (by simp [hnil])⟩
      · rename_i hEOF
        simp [hEOF] at h

/-- The first step of an iteration of `Scan`: the buffer may lose a token,
nothing else changes. -/
theorem scan_unfold (fuel : Nat) (src buf : List Byte) (err : Option ScanErr) (d : Bool) :
    ∃ (adv : Nat) (tok : Option (List Byte)),
      (∀ t, tok = some t → 1 ≤ adv ∧ buf ≠ []) ∧
      Scanner.scan (fuel + 1) ⟨src, buf, err, d⟩
        = match tok with
          | some token => some (⟨src, buf.drop adv, err, d⟩, some token)
          | none =>
            if err.isSome then some (⟨src, [], err, d⟩, none)
            else if MaxScanTokenSize ≤ (buf.drop adv).length then
              some (⟨src, buf.drop adv, some ScanErr.ErrTooLong, d⟩, none)
            else if src.length = 0 then
              Scanner.scan fuel ⟨src, buf.drop adv, some ScanErr.EOF, d⟩
            else
              Scanner.scan fuel
                ⟨src.drop (min (MaxScanTokenSize - (buf.drop adv).length) src.length),
                 buf.drop adv
                   ++ src.take (min (MaxScanTokenSize - (buf.drop adv).length) src.length),
                 err, d⟩ := by
  by_cases hcond : (decide (0 < buf.length) || err.isSome) = true
  · refine ⟨(ScanLines buf err.isSome).1, (ScanLines buf err.isSome).2,
      fun t ht => ScanLines_advance _ _ t ht, ?_⟩
    rw [Scanner.scan]
    simp only [hcond, if_true]
    cases (ScanLines buf err.isSome).2 <;> rfl
  · refine ⟨0, none, (fun t ht => by cases ht), ?_⟩
    rw [Scanner.scan]
    simp only [hcond, if_false, Bool.false_eq_true, List.drop_zero]

/-- The loop of `Scan` ends within the iterations `Scan` gives it. -/
theorem scan_total : ∀ (fuel : Nat) (src buf : List Byte) (err : Option ScanErr) (d : Bool),
    (if err.isSome then 0 else src.length + 1) < fuel →
    ∃ r, Scanner.scan fuel ⟨src, buf, err, d⟩ = some r := by
  intro fuel
  induction fuel with
  | zero => intro src buf err d h; omega
  | succ fuel ih =>
    intro src buf err d h
    obtain ⟨adv, tok, -, hscan⟩ := scan_unfold fuel src buf err d
    rw [hscan]
    cases tok with
    | some token => exact ⟨_, rfl⟩
    | none =>
      simp only []
      by_cases herr : err.isSome = true
      · simp only [herr, if_true]
        exact ⟨_, rfl⟩
      · simp only [herr, if_false, Bool.false_eq_true] at h ⊢
        split
        · exact ⟨_, rfl⟩
        · split
          · exact ih _ _ _ _ (by simp; omega)
          · rename_i hfull hsrc
            refine ih _ _ _ _ ?_
            simp only [List.length_drop] at hfull
            simp only [herr, if_false, Bool.false_eq_true, List.length_drop]
            omega

/-- `Scan` always returns. -/
theorem Scan_total (s : Scanner) : ∃ r, s.Scan = some r := by
  unfold Scanner.Scan
  split
  · exact ⟨_, rfl⟩
  · obtain ⟨src, buf, err, d⟩ := s
    refine scan_total _ src buf err d ?_
    split <;> simp

/-- The loop of `Scan` keeps the unconsumed bytes except for the token it
returns, which takes at least one. -/
theorem scan_progress : ∀ (fuel : Nat) (src buf : List Byte) (err : Option ScanErr) (d : Bool)
    (s1 : Scanner) (tok : List Byte),
    Scanner.scan fuel ⟨src, buf, err, d⟩ = some (s1, some tok) →
    s1.buf.length + s1.src.length < buf.length + src.length := by
  intro fuel
  induction fuel with
  | zero => intro src buf err d s1 tok h; simp [Scanner.scan] at h
  | succ fuel ih =>
    intro src buf err d s1 tok h
    obtain ⟨adv, t, hadv, hscan⟩ := scan_unfold fuel src buf err d
    rw [hscan] at h
    cases t with
    | some token =>
      obtain ⟨h1, hne⟩ := hadv token rfl
      simp only [Option.some.injEq, Prod.mk.injEq] at h
      obtain ⟨hs, -⟩ := h
      subst hs
      have hpos : 0 < buf.length := List.length_pos.mpr hne
      simp only [List.length_drop]
      omega
    | none =>
      simp only [] at h
      split at h
      · simp at h
      · split at h
        · simp at h
        · split at h
          · have := ih _ _ _ _ _ _ h
            simp only [List.length_drop] at this
            omega
          · have := ih _ _ _ _ _ _ h
            simp only [List.length_drop, List.length_append, List.length_take] at this
            omega

/-- A successful `Scan` consumes at least one byte. -/
theorem Scan_progress (s s1 : Scanner) (tok : List Byte) (h : s.Scan = some (s1, some tok)) :
    s1.buf.length + s1.src.length < s.buf.length + s.src.length := by
  unfold Scanner.Scan at h
  split at h
  · simp at h
  · obtain ⟨src, buf, err, d⟩ := s
    exact scan_progress _ src buf err d s1 tok h

/-- The loop of `checkOutput` ends within one more call of `Scan` than
there are unconsumed bytes. -/
theorem scanLoop_total : ∀ (fuel : Nat) (s : Scanner), s.buf.length + s.src.length < fuel →
    ∃ r, scanLoop fuel s = some r := by
  intro fuel
  induction fuel with
  | zero => intro s h; omega
  | succ fuel ih =>
    intro s hfuel
    obtain ⟨⟨s1, tok⟩, hscan⟩ := Scan_total s
    cases tok with
    | none => exact ⟨([], s1), by rw [scanLoop, hscan]⟩
    | some tok =>
      have hlt := Scan_progress s s1 tok hscan
      obtain ⟨⟨out, final⟩, hr⟩ := ih s1 (by omega)
      by_cases hc : Contains tok media = true
      · exact ⟨(Println [ascii "Read line:", tok] :: out, final),
          by rw [scanLoop, hscan]; simp [hr, hc]⟩
      · exact ⟨(out, final), by rw [scanLoop, hscan]; simp [hr, hc]⟩

/-- The loop of `checkOutput` always ends within the calls it is given. -/
theorem checkOutputRun_total (buf : GoString) : ∃ r, checkOutputRun buf = some r :=
  scanLoop_total (buf.length + 1) (NewScanner buf) (by simp [NewScanner])

/-- More fuel does not change the result of the loop. -/
theorem scanLoop_mono : ∀ (fuel : Nat) (s : Scanner) (r : List GoString × Scanner),
    scanLoop fuel s = some r → scanLoop (fuel + 1) s = some r := by
  intro fuel
  induction fuel with
  | zero => intro s r h; simp [scanLoop] at h
  | succ fuel ih =>
    intro s r h
    rw [scanLoop] at h ⊢
    rcases hscan : s.Scan with _ | ⟨s1, _ | tok⟩
    · rw [hscan] at h
      cases h
    · rw [hscan] at h
      exact h
    · rw [hscan] at h
      simp only at h ⊢
      rcases hrec : scanLoop fuel s1 with _ | ⟨out, final⟩
      · rw [hrec] at h
        cases h
      · rw [hrec] at h
        rw [ih s1 (out, final) hrec]
        exact h

theorem HasPrefix_iff (s p : GoString) : HasPrefix s p = true ↔ p <+: s := by
  induction p generalizing s with
  | nil => simp [HasPrefix]
  | cons b p ih =>
    cases s with
    | nil => simp [HasPrefix]
    | cons a s =>
      simp only [HasPrefix, Bool.and_eq_true, beq_iff_eq, ih, List.cons_prefix_cons]
      constructor
      · rintro ⟨h1, h2⟩; exact ⟨h1.symm, h2⟩
      · rintro ⟨h1, h2⟩; exact ⟨h1.symm, h2⟩

theorem Contains_iff (s sub : GoString) : Contains s sub = true ↔ sub <:+: s := by
  induction s with
  | nil =>
    simp only [Contains, HasPrefix_iff]
    constructor
    · intro h; exact h.isInfix
    · intro h
      have := List.eq_nil_of_infix_nil h
      subst this
      exact List.prefix_refl _
  | cons a s ih =>
    simp only [Contains, Bool.or_eq_true, HasPrefix_iff, ih]
    rw [List.infix_cons_iff]

/-- Dropping the trailing carriage return of a line does not change
whether the line contains the marker. -/
theorem Contains_dropCR (line : List Byte) :
    Contains (dropCR line) media = Contains line media := by
  unfold dropCR
  split
  · rename_i hlast
    have hline : line = line.dropLast ++ [13] := by
      have hne : line ≠ [] := by rintro rfl; simp at hlast
      have := List.dropLast_append_getLast hne
      rw [List.getLast?_eq_getLast _ hne] at hlast
      injection hlast with hlast
      rw [hlast] at this
      exact this.symm
    generalize line.dropLast = init at hline
    subst hline
    rw [Bool.eq_iff_iff, Contains_iff, Contains_iff]
    constructor
    · rintro ⟨a, b, hab⟩
      exact ⟨a, b ++ [13], by simp [← hab]⟩
    · rintro ⟨a, b, hab⟩
      rcases List.eq_nil_or_concat b with rfl | ⟨b1, x, rfl⟩
      · exfalso
        have hm : media = [109, 101, 100, 105] ++ [97] := by decide
        have h2 : a ++ [109, 101, 100, 105] ++ [97] = init ++ [13] := by
          rw [← hab, hm]
          simp
        have := (List.append_inj' h2 rfl).2
        simp at this
      · have h2 : (a ++ media ++ b1) ++ [x] = init ++ [13] := by
          rw [← hab]; simp
        exact ⟨a, b1, (List.append_inj' h2 rfl).1⟩
  · rfl

theorem dropCR_append_CR (line : List Byte) : dropCR (line ++ [13]) = line := by
  simp [dropCR]

theorem newline_not_mem_overlong : (10 : Byte) ∉ List.replicate MaxScanTokenSize (120 : Byte) := by
  intro h
  have := List.eq_of_mem_replicate h
  revert this
  decide

theorem specLines_overlongBuffer :
    specLines overlongBuffer = [List.replicate MaxScanTokenSize 120, media] := by
  have hm : specLines (media ++ [10]) = [media] := by decide
  rw [overlongBuffer, specLines_newline _ _ newline_not_mem_overlong, hm]

theorem take_overlongBuffer :
    overlongBuffer.take MaxScanTokenSize = List.replicate MaxScanTokenSize 120 := by
  rw [overlongBuffer, List.take_left' (List.length_replicate _ _)]

theorem length_overlongBuffer : MaxScanTokenSize ≤ overlongBuffer.length := by
  rw [overlongBuffer, List.length_append, List.length_replicate]
  exact Nat.le_add_right _ _

theorem checkOutput_of_run (buf : GoString) (out : List GoString) (final : Scanner)
    (h : checkOutputRun buf = some (out, final)) : checkOutput buf = out := by
  rw [checkOutput, h]

theorem drop_overlongBuffer :
    overlongBuffer.drop MaxScanTokenSize = 10 :: (media ++ [10]) := by
  rw [overlongBuffer, List.drop_left' (List.length_replicate _ _)]

/-- On the over-long buffer the first `Scan` fails and the loop ends with
nothing printed, the over-long line in the buffer and the rest unread. -/
theorem checkOutputRun_overlong :
    checkOutputRun overlongBuffer
      = some ([], ⟨10 :: (media ++ [10]), List.replicate MaxScanTokenSize 120,
                   some ScanErr.ErrTooLong, false⟩) := by
  have h := checkOutputRun_long [] overlongBuffer (fun l hl => by cases hl)
    (by rw [take_overlongBuffer]; exact newline_not_mem_overlong) length_overlongBuffer
  rw [List.flatMap_nil, List.nil_append, take_overlongBuffer, drop_overlongBuffer] at h
  exact h

theorem filter_dropCR (ls : List (List Byte)) :
    printed (ls.map dropCR)
      = (ls.filter (fun line => Contains line media)).map
          (fun line => Println [ascii "Read line:", dropCR line]) := by
  induction ls with
  | nil => rfl
  | cons l ls ih =>
    rw [List.map_cons, printed_cons, ih, Contains_dropCR]
    by_cases h : Contains l media = true <;> simp [List.filter_cons, h]

/-! ## The readiness loop -/

theorem pendingRounds_cons (pod : Pod) (pods : List Pod) :
    pendingRounds (pod :: pods) = pollRound pod ++ [Event.Sleep 1] ++ pendingRounds pods := by
  simp [pendingRounds, List.flatMap_cons]

theorem pendingRounds_append (pods more : List Pod) :
    pendingRounds (pods ++ more) = pendingRounds pods ++ pendingRounds more := by
  simp [pendingRounds, List.flatMap_append]

theorem remoteCalls_append (s t : List Event) :
    remoteCalls (s ++ t) = remoteCalls s ++ remoteCalls t := by
  simp [remoteCalls, List.filterMap_append]

theorem remoteCalls_pollRound (pod : Pod) : remoteCalls (pollRound pod) = [RemoteCall.get] := by
  simp [remoteCalls, pollRound, Event.remoteCall, List.filterMap_cons]

theorem remoteCalls_pendingRounds (pods : List Pod) :
    remoteCalls (pendingRounds pods) = List.replicate pods.length RemoteCall.get := by
  induction pods with
  | nil => simp [pendingRounds, remoteCalls]
  | cons pod pods ih =>
    rw [pendingRounds_cons, remoteCalls_append, remoteCalls_append, remoteCalls_pollRound, ih]
    simp [remoteCalls, Event.remoteCall, List.replicate_succ]

theorem sleeps_pendingRounds (pods : List Pod) :
    ((pendingRounds pods).filter Event.isSleep) = List.replicate pods.length (Event.Sleep 1) := by
  induction pods with
  | nil => simp [pendingRounds]
  | cons pod pods ih =>
    rw [pendingRounds_cons, List.filter_append, ih]
    simp [pollRound, Event.isSleep, List.filter_cons, List.replicate_succ]

theorem afterLoop_pendingRounds (pods : List Pod) :
    ∀ ev ∈ pendingRounds pods, ev.afterLoop = false := by
  induction pods with
  | nil => simp [pendingRounds]
  | cons pod pods ih =>
    rw [pendingRounds_cons]
    intro ev hev
    simp only [List.mem_append, pollRound, List.mem_cons, List.mem_singleton,
      List.not_mem_nil, or_false] at hev
    rcases hev with ((h | h) | h) | h
    · subst h; rfl
    · subst h; rfl
    · subst h; rfl
    · exact ih ev h

theorem err_pendingRounds (pods : List Pod) :
    ∀ ev ∈ pendingRounds pods, ev.err = none := by
  induction pods with
  | nil => simp [pendingRounds]
  | cons pod pods ih =>
    rw [pendingRounds_cons]
    intro ev hev
    simp only [List.mem_append, pollRound, List.mem_cons, List.mem_singleton,
      List.not_mem_nil, or_false] at hev
    rcases hev with ((h | h) | h) | h
    · subst h; rfl
    · subst h; rfl
    · subst h; rfl
    · exact ih ev h

/-- The loop leaves with `break` at the first running answer: with the
`Get` calls from the `k`-th on answered by the pods `pods`, none running,
and then by the running pod `last`, any fuel above `pods.length` gives the
rounds for `pods` followed by the round for `last`. -/
theorem readinessLoop_break (w : World) (last : Pod) (hlast : last.Phase = PodRunning) :
    ∀ (pods : List Pod) (k fuel : Nat), pods.length < fuel →
      (∀ j pod, pods[j]? = some pod →
        w.Get (k + j) (ascii "nginx") (ascii "new-pod") = Except.ok pod) →
      (∀ pod ∈ pods, pod.Phase ≠ PodRunning) →
      w.Get (k + pods.length) (ascii "nginx") (ascii "new-pod") = Except.ok last →
      readinessLoop w fuel k = (pendingRounds pods ++ pollRound last, LoopExit.broke) := by
  intro pods
  induction pods with
  | nil =>
    intro k fuel hfuel _ _ hget
    obtain ⟨f, rfl⟩ : ∃ f, fuel = f + 1 := ⟨fuel - 1, by simp at hfuel; omega⟩
    simp only [List.length_nil, Nat.add_zero] at hget
    simp [readinessLoop, hget, hlast, pendingRounds, pollRound]
  | cons pod pods ih =>
    intro k fuel hfuel hresp hpend hget
    obtain ⟨f, rfl⟩ : ∃ f, fuel = f + 1 := ⟨fuel - 1, by simp at hfuel; omega⟩
    have h0 : w.Get k (ascii "nginx") (ascii "new-pod") = Except.ok pod := by
      simpa using hresp 0 pod (by simp)
    have hne : pod.Phase ≠ PodRunning := hpend pod (by simp)
    have hrec := ih (k + 1) f (by simp at hfuel; omega)
      (fun j q hq => by
        have := hresp (j + 1) q (by simpa using hq)
        rwa [show k + 1 + j = k + (j + 1) by omega])
      (fun q hq => hpend q (by simp [hq]))
      (by rw [show k + 1 + pods.length = k + (pod :: pods).length by simp; omega]; exact hget)
    simp only [readinessLoop, h0, hne, if_false, hrec, pendingRounds_cons, pollRound]
    simp

/-- The loop keeps polling while no answer is running: with the `Get`
calls from the `k`-th on answered by the pods `pods`, none running, fuel
`pods.length` is used up inside the loop, after one round and one sleep
for each pod. -/
theorem readinessLoop_polling (w : World) :
    ∀ (pods : List Pod) (k : Nat),
      (∀ j pod, pods[j]? = some pod →
        w.Get (k + j) (ascii "nginx") (ascii "new-pod") = Except.ok pod) →
      (∀ pod ∈ pods, pod.Phase ≠ PodRunning) →
      readinessLoop w pods.length k = (pendingRounds pods, LoopExit.polling) := by
  intro pods
  induction pods with
  | nil => intro k _ _; simp [readinessLoop, pendingRounds]
  | cons pod pods ih =>
    intro k hresp hpend
    have h0 : w.Get k (ascii "nginx") (ascii "new-pod") = Except.ok pod := by
      simpa using hresp 0 pod (by simp)
    have hne : pod.Phase ≠ PodRunning := hpend pod (by simp)
    have hrec := ih (k + 1)
      (fun j q hq => by
        have := hresp (j + 1) q (by simpa using hq)
        rwa [show k + 1 + j = k + (j + 1) by omega])
      (fun q hq => hpend q (by simp [hq]))
    simp only [List.length_cons, readinessLoop, h0, hne, if_false, hrec, pendingRounds_cons,
      pollRound]

/-- Every way the loop can end, read off the answers: a run of
non-running pods `pods` answered the `Get` calls from the `k`-th on, and
then the loop broke on a running pod, panicked on a failed `Get`, or used
up its fuel. -/
theorem readinessLoop_cases (w : World) :
    ∀ (fuel k : Nat), ∃ pods : List Pod,
      (∀ j pod, pods[j]? = some pod →
        w.Get (k + j) (ascii "nginx") (ascii "new-pod") = Except.ok pod) ∧
      (∀ pod ∈ pods, pod.Phase ≠ PodRunning) ∧
      ((∃ last, last.Phase = PodRunning ∧ pods.length < fuel ∧
          w.Get (k + pods.length) (ascii "nginx") (ascii "new-pod") = Except.ok last ∧
          readinessLoop w fuel k = (pendingRounds pods ++ pollRound last, LoopExit.broke)) ∨
       (∃ err, pods.length < fuel ∧
          w.Get (k + pods.length) (ascii "nginx") (ascii "new-pod") = Except.error err ∧
          readinessLoop w fuel k
            = (pendingRounds pods
                ++ [Event.Get (ascii "nginx") (ascii "new-pod") (Except.error err)],
               LoopExit.panicked err)) ∨
       (pods.length = fuel ∧
          readinessLoop w fuel k = (pendingRounds pods, LoopExit.polling))) := by
  intro fuel
  induction fuel with
  | zero =>
    intro k
    exact ⟨[], by simp, by simp, Or.inr (Or.inr ⟨rfl, by simp [readinessLoop, pendingRounds]⟩)⟩
  | succ f ih =>
    intro k
    cases hget : w.Get k (ascii "nginx") (ascii "new-pod") with
    | error err =>
      refine ⟨[], by simp, by simp, Or.inr (Or.inl ⟨err, by simp, by simpa using hget, ?_⟩)⟩
      simp [readinessLoop, hget, pendingRounds]
    | ok pod =>
      by_cases hrun : pod.Phase = PodRunning
      · refine ⟨[], by simp, by simp, Or.inl ⟨pod, hrun, by simp, by simpa using hget, ?_⟩⟩
        simp [readinessLoop, hget, hrun, pendingRounds, pollRound]
      · obtain ⟨pods, hresp, hpend, hend⟩ := ih (k + 1)
        have hresp1 : ∀ j q, (pod :: pods)[j]? = some q →
            w.Get (k + j) (ascii "nginx") (ascii "new-pod") = Except.ok q := by
          intro j q hq
          cases j with
          | zero => simp at hq; subst hq; simpa using hget
          | succ j =>
            have := hresp j q (by simpa using hq)
            rwa [show k + 1 + j = k + (j + 1) by omega] at this
        have hpend1 : ∀ q ∈ pod :: pods, q.Phase ≠ PodRunning := by
          intro q hq
          rcases List.mem_cons.mp hq with h | h
          · subst h; exact hrun
          · exact hpend q h
        have hidx : k + 1 + pods.length = k + (pod :: pods).length := by simp; omega
        refine ⟨pod :: pods, hresp1, hpend1, ?_⟩
        rcases hend with ⟨last, hl, hlen, hg, hloop⟩ | ⟨err, hlen, hg, hloop⟩ | ⟨hlen, hloop⟩
        · refine Or.inl ⟨last, hl, by simp; omega, by rw [← hidx]; exact hg, ?_⟩
          simp only [readinessLoop, hget, hrun, if_false, hloop, pendingRounds_cons, pollRound]
          simp
        · refine Or.inr (Or.inl ⟨err, by simp; omega, by rw [← hidx]; exact hg, ?_⟩)
          simp only [readinessLoop, hget, hrun, if_false, hloop, pendingRounds_cons, pollRound]
          simp
        · refine Or.inr (Or.inr ⟨by simp; omega, ?_⟩)
          simp only [readinessLoop, hget, hrun, if_false, hloop, pendingRounds_cons, pollRound]

/-! ## The shape of a run -/

/-- The three ways `ExecCmdExample` can end: the executor cannot be built,
the stream fails, or the stream completes. -/
theorem ExecCmdExample_cases (w : World) (client : Clientset) (config : Config)
    (podName ns command : GoString) (stdin : Option Reader) :
    (∃ err, ExecCmdExample w client config podName ns command stdin
      = ([Event.NewSPDYExecutor config (ascii "POST")
            (execURL client podName ns command stdin) (some err)], [], some err)) ∨
    (∃ written err, ExecCmdExample w client config podName ns command stdin
      = ([Event.NewSPDYExecutor config (ascii "POST")
            (execURL client podName ns command stdin) none,
          Event.Stream (execURL client podName ns command stdin) stdin (some err)],
         written, some err)) ∨
    (∃ written, ExecCmdExample w client config podName ns command stdin
      = ([Event.NewSPDYExecutor config (ascii "POST")
            (execURL client podName ns command stdin) none,
          Event.Stream (execURL client podName ns command stdin) stdin none],
         written, none)) := by
  simp only [ExecCmdExample, execURL]
  split
  · exact Or.inl ⟨_, rfl⟩
  · split
    · exact Or.inr (Or.inl ⟨_, _, rfl⟩)
    · exact Or.inr (Or.inr ⟨_, rfl⟩)

/-- Every run of `main` has one of the shapes of `RunShape`. -/
theorem main_shape (w : World) (p : Process) (fuel : Nat) : RunShape w p fuel (main w p fuel) := by
  simp only [main]
  generalize (if p.home ≠ [] then flagString p (w.Join [p.home, ascii ".kube", ascii "config"])
    else flagString p []) = kubeconfig
  cases w.BuildConfigFromFlags [] kubeconfig with
  | error err => exact RunShape.configError _ _
  | ok config =>
  simp only []
  cases w.NewForConfig config with
  | error err => exact RunShape.clientError _ _ _
  | ok clientset =>
  simp only []
  cases w.Create (ascii "nginx") podSpec with
  | error err => exact RunShape.createError _ _ _
  | ok created =>
  simp only []
  obtain ⟨pods, -, hpend, hend⟩ := readinessLoop_cases w fuel 0
  rcases hend with ⟨last, hl, -, -, hloop⟩ | ⟨err, -, -, hloop⟩ | ⟨hlen, hloop⟩
  · rw [hloop]
    simp only []
    rcases ExecCmdExample_cases w clientset config
      (ascii "new-pod") (ascii "nginx") (ascii "ls -l") (some p.Stdin) with hex | hex | hex
    · obtain ⟨err, hex⟩ := hex
      rw [hex]
      have := RunShape.executorError (p := p) kubeconfig config created pods last
        (execURL clientset (ascii "new-pod") (ascii "nginx") (ascii "ls -l") (some p.Stdin)) err hloop hpend hl
      simpa [setupSteps] using this
    · obtain ⟨written, err, hex⟩ := hex
      rw [hex]
      have := RunShape.streamError (p := p) kubeconfig config created pods last
        (execURL clientset (ascii "new-pod") (ascii "nginx") (ascii "ls -l") (some p.Stdin)) err hloop hpend hl
      simpa [setupSteps] using this
    · obtain ⟨written, hex⟩ := hex
      rw [hex]
      simp only []
      cases w.Delete (ascii "nginx") (ascii "new-pod") with
      | some err =>
        have := RunShape.deleteError (p := p) kubeconfig config created pods last
          (execURL clientset (ascii "new-pod") (ascii "nginx") (ascii "ls -l") (some p.Stdin)) written err hloop hpend hl
        simpa [teardownSteps, setupSteps] using this
      | none =>
        have := RunShape.returned (p := p) kubeconfig config created pods last
          (execURL clientset (ascii "new-pod") (ascii "nginx") (ascii "ls -l") (some p.Stdin)) written hloop hpend hl
        simpa [teardownSteps, setupSteps] using this
  · rw [hloop]
    have := RunShape.getError (p := p) kubeconfig config created pods err hloop hpend
    simpa [setupSteps] using this
  · rw [hloop]
    have := RunShape.polling (p := p) kubeconfig config created pods hloop hpend hlen
    simpa [setupSteps] using this

/-- A loop that has ended keeps its result when given more iterations. -/
theorem readinessLoop_mono (w : World) : ∀ (fuel k : Nat),
    (readinessLoop w fuel k).2 ≠ LoopExit.polling →
    readinessLoop w (fuel + 1) k = readinessLoop w fuel k := by
  intro fuel
  induction fuel with
  | zero => intro k h; simp [readinessLoop] at h
  | succ fuel ih =>
    intro k h
    rw [readinessLoop] at h ⊢
    conv_rhs => rw [readinessLoop]
    cases hget : w.Get k (ascii "nginx") (ascii "new-pod") with
    | error err => rfl
    | ok pod =>
      rw [hget] at h
      by_cases hrun : pod.Phase = PodRunning
      · simp [hrun]
      · simp only [hrun, if_false] at h ⊢
        rw [ih (k + 1) h]

/-- A run that has ended is the same run when the readiness loop is given
more iterations. -/
theorem main_mono (w : World) (p : Process) (fuel : Nat)
    (hend : (main w p fuel).outcome ≠ Outcome.polling) :
    main w p (fuel + 1) = main w p fuel := by
  revert hend
  simp only [main]
  generalize (if p.home ≠ [] then flagString p (w.Join [p.home, ascii ".kube", ascii "config"])
    else flagString p []) = kubeconfig
  cases w.BuildConfigFromFlags [] kubeconfig with
  | error err => intro _; rfl
  | ok config =>
  simp only []
  cases w.NewForConfig config with
  | error err => intro _; rfl
  | ok clientset =>
  simp only []
  cases w.Create (ascii "nginx") podSpec with
  | error err => intro _; rfl
  | ok created =>
  simp only []
  intro hend
  have hloop : (readinessLoop w fuel 0).2 ≠ LoopExit.polling := by
    intro hpoll
    rcases hr : readinessLoop w fuel 0 with ⟨loop, exit⟩
    rw [hr] at hpoll hend
    simp only at hpoll
    subst hpoll
    simp at hend
  rw [readinessLoop_mono w fuel 0 hloop]

/-! ## Reading the shapes -/

theorem remoteCalls_setupSteps (kubeconfig : GoString) (config : Config) (created : Pod) :
    remoteCalls (setupSteps kubeconfig config created) = [RemoteCall.create] := by
  simp [remoteCalls, setupSteps, Event.remoteCall, List.filterMap_cons]

theorem remoteCalls_map_Println (texts : List GoString) :
    remoteCalls (texts.map Event.Println) = [] := by
  induction texts with
  | nil => rfl
  | cons l ls ih =>
    simp only [remoteCalls] at ih
    simp [remoteCalls, List.filterMap_cons, Event.remoteCall, ih]

theorem remoteCalls_teardownSteps (buffer : GoString) (err : GoError) :
    remoteCalls (teardownSteps buffer err) = [RemoteCall.delete] := by
  simp only [teardownSteps, remoteCalls_append, remoteCalls_map_Println]
  simp [remoteCalls, Event.remoteCall, List.filterMap_cons]

theorem gotPod_pendingRounds (pods : List Pod) :
    (pendingRounds pods).filterMap Event.gotPod = pods := by
  induction pods with
  | nil => simp [pendingRounds]
  | cons pod pods ih =>
    rw [pendingRounds_cons, List.filterMap_append, ih]
    simp [pollRound, Event.gotPod, List.filterMap_cons]

theorem gotPod_map_Println (texts : List GoString) :
    (texts.map Event.Println).filterMap Event.gotPod = [] := by
  induction texts with
  | nil => rfl
  | cons l ls ih => simp [List.filterMap_cons, Event.gotPod, ih]

theorem gotPod_teardownSteps (buffer : GoString) (err : GoError) :
    (teardownSteps buffer err).filterMap Event.gotPod = [] := by
  simp only [teardownSteps, List.filterMap_append, gotPod_map_Println]
  simp [Event.gotPod, List.filterMap_cons]

theorem err_setupSteps (kubeconfig : GoString) (config : Config) (created : Pod) :
    ∀ ev ∈ setupSteps kubeconfig config created, ev.err = none := by
  intro ev hev
  simp only [setupSteps, List.mem_cons, List.mem_singleton, List.not_mem_nil, or_false] at hev
  rcases hev with h | h | h | h | h | h <;> subst h <;> rfl

theorem err_pollRound (pod : Pod) : ∀ ev ∈ pollRound pod, ev.err = none := by
  intro ev hev
  simp only [pollRound, List.mem_cons, List.mem_singleton, List.not_mem_nil, or_false] at hev
  rcases hev with h | h <;> subst h <;> rfl

theorem err_checked (buffer : GoString) :
    ∀ ev ∈ [Event.checkOutput buffer] ++ (checkOutput buffer).map Event.Println
        ++ [Event.Println (Println [ascii "Deleting pod"])], ev.err = none := by
  intro ev hev
  simp only [List.mem_append, List.mem_singleton, List.mem_map] at hev
  rcases hev with (h | ⟨l, -, h⟩) | h <;> subst h <;> rfl

theorem afterLoop_setupSteps (kubeconfig : GoString) (config : Config) (created : Pod) :
    ∀ ev ∈ setupSteps kubeconfig config created, ev.afterLoop = false := by
  intro ev hev
  simp only [setupSteps, List.mem_cons, List.mem_singleton, List.not_mem_nil, or_false] at hev
  rcases hev with h | h | h | h | h | h <;> subst h <;> rfl

/-- In a trace whose steps before the last all succeeded, a failed step
has nothing after it. -/
theorem nothing_after_failure (init : List Event) (final : Event)
    (hinit : ∀ e ∈ init, e.err = none) (pre post : List Event) (ev : Event)
    (hsplit : init ++ [final] = pre ++ ev :: post) (herr : ev.err ≠ none) : post = [] := by
  by_contra hpost
  obtain ⟨post1, x, rfl⟩ : ∃ post1 x, post = post1 ++ [x] :=
    ⟨post.dropLast, post.getLast hpost, (List.dropLast_append_getLast hpost).symm⟩
  have h2 : init ++ [final] = (pre ++ ev :: post1) ++ [x] := by
    rw [hsplit]; simp
  have h3 := (List.append_inj' h2 rfl).1
  exact herr (hinit ev (by rw [h3]; simp))

/-- In a trace whose steps all succeeded there is no failed step. -/
theorem no_failure (t : List Event) (ht : ∀ e ∈ t, e.err = none) (pre post : List Event)
    (ev : Event) (hsplit : t = pre ++ ev :: post) (herr : ev.err ≠ none) : post = [] :=
  absurd (ht ev (by rw [hsplit]; simp)) herr

/-- Every run either ends in a panic right after its one failed step, the
message being that step's error, or has no failed step and then either
returns or is still polling, no pod seen so far being running. -/
theorem main_summary (w : World) (p : Process) (fuel : Nat) :
    (∃ init final err, (main w p fuel).trace = init ++ [final] ∧ (∀ e ∈ init, e.err = none)
        ∧ final.err = some err ∧ (main w p fuel).outcome = Outcome.panicked err) ∨
    ((∀ e ∈ (main w p fuel).trace, e.err = none) ∧
      ((main w p fuel).outcome = Outcome.returned ∨
        ((main w p fuel).outcome = Outcome.polling ∧
          ∀ pod ∈ (main w p fuel).trace.filterMap Event.gotPod, pod.Phase ≠ PodRunning))) := by
  have h := main_shape w p fuel
  generalize main w p fuel = run at h
  cases h with
  | configError kubeconfig err =>
    exact Or.inl ⟨[], _, err, rfl, by simp, rfl, rfl⟩
  | clientError kubeconfig config err =>
    refine Or.inl ⟨[Event.BuildConfigFromFlags [] kubeconfig none], _, err, rfl, ?_, rfl, rfl⟩
    intro e he
    simp only [List.mem_singleton] at he
    subst he; rfl
  | createError kubeconfig config err =>
    refine Or.inl ⟨[Event.BuildConfigFromFlags [] kubeconfig none, Event.NewForConfig config none,
      Event.Println (Println [ascii "Creating pod"])], _, err, rfl, ?_, rfl, rfl⟩
    intro e he
    simp only [List.mem_cons, List.mem_singleton, List.not_mem_nil, or_false] at he
    rcases he with h | h | h <;> subst h <;> rfl
  | polling kubeconfig config created pods hloop hpend hlen =>
    refine Or.inr ⟨List.forall_mem_append.mpr ⟨err_setupSteps _ _ _, err_pendingRounds _⟩,
      Or.inr ⟨rfl, ?_⟩⟩
    intro pod hpod
    simp only [List.filterMap_append, gotPod_pendingRounds] at hpod
    simp only [setupSteps, List.filterMap_cons, Event.gotPod, List.filterMap_nil,
      List.nil_append] at hpod
    exact hpend pod hpod
  | getError kubeconfig config created pods err hloop hpend =>
    refine Or.inl ⟨setupSteps kubeconfig config created ++ pendingRounds pods,
      Event.Get (ascii "nginx") (ascii "new-pod") (Except.error err), err,
      by simp, ?_, rfl, rfl⟩
    exact List.forall_mem_append.mpr ⟨err_setupSteps _ _ _, err_pendingRounds _⟩
  | executorError kubeconfig config created pods last req err hloop hpend hlast =>
    refine Or.inl ⟨setupSteps kubeconfig config created ++ (pendingRounds pods ++ pollRound last),
      _, err, rfl, ?_, rfl, rfl⟩
    exact List.forall_mem_append.mpr ⟨err_setupSteps _ _ _,
      List.forall_mem_append.mpr ⟨err_pendingRounds _, err_pollRound _⟩⟩
  | streamError kubeconfig config created pods last req err hloop hpend hlast =>
    refine Or.inl ⟨setupSteps kubeconfig config created ++ (pendingRounds pods ++ pollRound last)
      ++ [Event.NewSPDYExecutor config (ascii "POST") req none],
      Event.Stream req (some p.Stdin) (some err), err, by simp, ?_, rfl, rfl⟩
    refine List.forall_mem_append.mpr ⟨List.forall_mem_append.mpr ⟨err_setupSteps _ _ _,
      List.forall_mem_append.mpr ⟨err_pendingRounds _, err_pollRound _⟩⟩, ?_⟩
    intro e he
    simp only [List.mem_singleton] at he
    subst he; rfl
  | deleteError kubeconfig config created pods last req buffer err hloop hpend hlast =>
    refine Or.inl ⟨setupSteps kubeconfig config created ++ (pendingRounds pods ++ pollRound last)
      ++ [Event.NewSPDYExecutor config (ascii "POST") req none,
          Event.Stream req (some p.Stdin) none]
      ++ ([Event.checkOutput buffer] ++ (checkOutput buffer).map Event.Println
          ++ [Event.Println (Println [ascii "Deleting pod"])]),
      Event.Delete (ascii "nginx") (ascii "new-pod") (some err), err,
      by simp [teardownSteps], ?_, rfl, rfl⟩
    refine List.forall_mem_append.mpr ⟨List.forall_mem_append.mpr
      ⟨List.forall_mem_append.mpr ⟨err_setupSteps _ _ _,
        List.forall_mem_append.mpr ⟨err_pendingRounds _, err_pollRound _⟩⟩, ?_⟩,
      err_checked buffer⟩
    intro e he
    simp only [List.mem_cons, List.mem_singleton, List.not_mem_nil, or_false] at he
    rcases he with h | h <;> subst h <;> rfl
  | returned kubeconfig config created pods last req buffer hloop hpend hlast =>
    refine Or.inr ⟨?_, Or.inl rfl⟩
    have htear : ∀ e ∈ teardownSteps buffer none, e.err = none := by
      intro e he
      simp only [teardownSteps, List.mem_append, List.mem_singleton, List.mem_map,
        List.mem_cons, List.not_mem_nil, or_false] at he
      rcases he with (h | ⟨l, -, h⟩) | h | h <;> subst h <;> rfl
    refine List.forall_mem_append.mpr ⟨List.forall_mem_append.mpr
      ⟨List.forall_mem_append.mpr ⟨err_setupSteps _ _ _,
        List.forall_mem_append.mpr ⟨err_pendingRounds _, err_pollRound _⟩⟩, ?_⟩, htear⟩
    intro e he
    simp only [List.mem_cons, List.mem_singleton, List.not_mem_nil, or_false] at he
    rcases he with h | h <;> subst h <;> rfl

/-! ## The exec request -/

/-- The request `ExecCmdExample` builds when the builder accepts the pod
name and the namespace. -/
theorem exec_request_accepted (client : Clientset) (podName ns : GoString)
    (hname : podName ≠ []) (hvalid : IsValidPathSegmentName podName = [])
    (hns : IsValidPathSegmentName ns = []) :
    ((((Post client).Resource (ascii "pods")).Name podName).Namespace ns).SubResource
        (ascii "exec")
      = { c := client, verb := ascii "POST", namespaceSet := true, ns := ns,
          resource := ascii "pods", resourceName := podName, subresource := ascii "exec",
          params := [], err := none } := by
  have hlen : podName.length ≠ 0 := fun h0 => hname (List.length_eq_zero.mp h0)
  have hpods : IsValidPathSegmentName (ascii "pods") = [] := by decide
  have hexec : IsValidPathSegmentName (ascii "exec") = [] := by decide
  simp [Post, NewRequest, Request.Verb, Request.Resource, Request.Name, Request.Namespace,
    Request.SubResource, hlen, hvalid, hns, hpods, hexec]

/-- The query of the URL `ExecCmdExample` hands to the executor when the
builder accepts the pod name and the namespace: the timeout of the client
if it has one, the command, `tty`, `stderr`, `stdout`, and `stdin` when a
stdin source is supplied. -/
theorem execURL_query (client : Clientset) (podName ns command : GoString)
    (stdin : Option Reader) (hname : podName ≠ [])
    (hvalid : IsValidPathSegmentName podName = []) (hns : IsValidPathSegmentName ns = []) :
    (execURL client podName ns command stdin).Query
      = (match client.timeout with
          | some t => [(ascii "timeout", [t])]
          | none => []) ++
         ([(ascii "command",
              [ascii "sh", ascii "-c", if command ≠ ascii "<nil>" then command else []]),
            (ascii "tty", [ascii "true"]),
            (ascii "stderr", [ascii "true"]), (ascii "stdout", [ascii "true"])]
          ++ if stdin = none then [] else [(ascii "stdin", [ascii "true"])]) := by
  rw [execURL, exec_request_accepted client podName ns hname hvalid hns]
  obtain ⟨config, timeout⟩ := client
  cases timeout <;> cases stdin <;>
    simp +decide [Request.URL, Request.VersionedParams, EncodeParameters, addParam, formatBool,
      Values.Add, Values.Set, Values.assign, Values.index]

/-- The first step of `ExecCmdExample` hands the executor the URL of the
request it built. -/
theorem ExecCmdExample_head (w : World) (client : Clientset) (config : Config)
    (podName ns command : GoString) (stdin : Option Reader) :
    ∃ err, (ExecCmdExample w client config podName ns command stdin).1.head?
      = some (Event.NewSPDYExecutor config (ascii "POST")
          (execURL client podName ns command stdin) err) := by
  rcases ExecCmdExample_cases w client config podName ns command stdin with
    ⟨err, h⟩ | ⟨written, err, h⟩ | ⟨written, h⟩
  · exact ⟨some err, by rw [h]; rfl⟩
  · exact ⟨none, by rw [h]; rfl⟩
  · exact ⟨none, by rw [h]; rfl⟩

/-- C5, as the code has it: when the request builder accepts the pod name
and the namespace (the name is not empty, and neither is `.` or `..` or
contains `/` or `%`), the URL handed to the executor holds `stdin=true`
exactly when a stdin source is supplied, and no `stdin` value when `stdin`
is `nil`. -/
theorem ExecCmdExample_stdin_iff (w : World) (client : Clientset) (config : Config)
    (podName ns command : GoString) (stdin : Option Reader) (hname : podName ≠ [])
    (hvalid : IsValidPathSegmentName podName = []) (hns : IsValidPathSegmentName ns = []) :
    ∃ url err,
      (ExecCmdExample w client config podName ns command stdin).1.head?
          = some (Event.NewSPDYExecutor config (ascii "POST") url err)
        ∧ (stdinEnabled url ↔ stdin ≠ none)
        ∧ (stdin = none → Values.index url.Query (ascii "stdin") = []) := by
  obtain ⟨err, hhead⟩ := ExecCmdExample_head w client config podName ns command stdin
  refine ⟨_, err, hhead, ?_, ?_⟩
  · rw [stdinEnabled, execURL_query client podName ns command stdin hname hvalid hns]
    obtain ⟨cfg, timeout⟩ := client
    cases timeout <;> cases stdin <;> simp +decide [Values.index]
  · intro hnil
    rw [execURL_query client podName ns command stdin hname hvalid hns]
    obtain ⟨cfg, timeout⟩ := client
    subst hnil
    cases timeout <;> simp +decide [Values.index]

/-- The exec request of the scenario holds `stdin=true`, standard input
being supplied. -/
theorem ExecCmdExample_stdin_iff_witness :
    ∃ url err,
      (ExecCmdExample scenarioWorld sampleClient sampleConfig (ascii "new-pod") (ascii "nginx")
          (ascii "ls -l") (some ⟨[]⟩)).1.head?
          = some (Event.NewSPDYExecutor sampleConfig (ascii "POST") url err)
        ∧ (stdinEnabled url ↔ (some (⟨[]⟩ : Reader)) ≠ none)
        ∧ ((some (⟨[]⟩ : Reader)) = none → Values.index url.Query (ascii "stdin") = []) :=
  ExecCmdExample_stdin_iff scenarioWorld sampleClient sampleConfig (ascii "new-pod")
    (ascii "nginx") (ascii "ls -l") (some ⟨[]⟩) (by decide) (by decide) (by decide)

/-- C5 fails as stated: with the namespace `a/b`, which the request
builder rejects, and a stdin source supplied, the URL handed to the
executor has no query at all, so it does not hold `stdin=true`. -/
theorem ExecCmdExample_stdin_dropped :
    (ExecCmdExample scenarioWorld sampleClient sampleConfig (ascii "new-pod") (ascii "a/b")
        (ascii "ls -l") (some ⟨[]⟩)).1.head?
        = some (Event.NewSPDYExecutor sampleConfig (ascii "POST")
            ⟨sampleClient, [ascii "pods", ascii "new-pod"], []⟩ none)
      ∧ ¬ (stdinEnabled ⟨sampleClient, [ascii "pods", ascii "new-pod"], []⟩
            ↔ (some (⟨[]⟩ : Reader)) ≠ none) := by
  refine ⟨by decide, ?_⟩
  intro h
  have h2 := h.mpr (by simp)
  revert h2
  unfold stdinEnabled
  decide

/-- C8, as the code has it: when the request builder accepts the pod name
and the namespace (the name is not empty, and neither is `.` or `..` or
contains `/` or `%`), the URL handed to the executor holds the command
`sh`, `-c`, `command`, the command string as one value (the empty string
in place of the command string `<nil>`, which the parameter encoder takes
for a missing value), and `tty`, `stdout` and `stderr` set to `true`,
whatever the other arguments are. -/
theorem ExecCmdExample_command (w : World) (client : Clientset) (config : Config)
    (podName ns command : GoString) (stdin : Option Reader) (hname : podName ≠ [])
    (hvalid : IsValidPathSegmentName podName = []) (hns : IsValidPathSegmentName ns = []) :
    ∃ url err,
      (ExecCmdExample w client config podName ns command stdin).1.head?
          = some (Event.NewSPDYExecutor config (ascii "POST") url err)
        ∧ Values.index url.Query (ascii "command")
            = [ascii "sh", ascii "-c", if command ≠ ascii "<nil>" then command else []]
        ∧ (command ≠ ascii "<nil>" →
            Values.index url.Query (ascii "command") = [ascii "sh", ascii "-c", command])
        ∧ Values.index url.Query (ascii "tty") = [ascii "true"]
        ∧ Values.index url.Query (ascii "stdout") = [ascii "true"]
        ∧ Values.index url.Query (ascii "stderr") = [ascii "true"] := by
  obtain ⟨err, hhead⟩ := ExecCmdExample_head w client config podName ns command stdin
  refine ⟨_, err, hhead, ?_⟩
  rw [execURL_query client podName ns command stdin hname hvalid hns]
  obtain ⟨cfg, timeout⟩ := client
  cases timeout <;> cases stdin <;>
    refine ⟨?_, ?_, ?_, ?_, ?_⟩ <;>
    first
      | (intro hne; simp +decide [Values.index, hne])
      | simp +decide [Values.index]

/-- The exec request of the scenario holds the command `sh`, `-c`,
`ls -l` and the three flags. -/
theorem ExecCmdExample_command_witness :
    ∃ url err,
      (ExecCmdExample scenarioWorld sampleClient sampleConfig (ascii "new-pod") (ascii "nginx")
          (ascii "ls -l") (some ⟨[]⟩)).1.head?
          = some (Event.NewSPDYExecutor sampleConfig (ascii "POST") url err)
        ∧ Values.index url.Query (ascii "command")
            = [ascii "sh", ascii "-c", if ascii "ls -l" ≠ ascii "<nil>" then ascii "ls -l" else []]
        ∧ (ascii "ls -l" ≠ ascii "<nil>" →
            Values.index url.Query (ascii "command") = [ascii "sh", ascii "-c", ascii "ls -l"])
        ∧ Values.index url.Query (ascii "tty") = [ascii "true"]
        ∧ Values.index url.Query (ascii "stdout") = [ascii "true"]
        ∧ Values.index url.Query (ascii "stderr") = [ascii "true"] :=
  ExecCmdExample_command scenarioWorld sampleClient sampleConfig (ascii "new-pod")
    (ascii "nginx") (ascii "ls -l") (some ⟨[]⟩) (by decide) (by decide) (by decide)

/-- C8 fails as stated: with an empty pod name, which the request builder
rejects, the URL handed to the executor is that of the pod collection,
with no command and no flags; and with the command string `<nil>` the
third value of the command is the empty string. -/
theorem ExecCmdExample_command_dropped :
    ((ExecCmdExample scenarioWorld sampleClient sampleConfig [] (ascii "nginx")
        (ascii "ls -l") (some ⟨[]⟩)).1.head?
        = some (Event.NewSPDYExecutor sampleConfig (ascii "POST")
            ⟨sampleClient, [ascii "pods"], []⟩ none)
      ∧ Values.index (URL.Query ⟨sampleClient, [ascii "pods"], []⟩) (ascii "command")
          ≠ [ascii "sh", ascii "-c", ascii "ls -l"]
      ∧ Values.index (URL.Query ⟨sampleClient, [ascii "pods"], []⟩) (ascii "tty")
          ≠ [ascii "true"])
    ∧ ((ExecCmdExample scenarioWorld sampleClient sampleConfig (ascii "new-pod") (ascii "nginx")
        (ascii "<nil>") (some ⟨[]⟩)).1.head?
        = some (Event.NewSPDYExecutor sampleConfig (ascii "POST")
            { sampleURL with Query := [(ascii "command", [ascii "sh", ascii "-c", []]),
                (ascii "tty", [ascii "true"]), (ascii "stderr", [ascii "true"]),
                (ascii "stdout", [ascii "true"]), (ascii "stdin", [ascii "true"])] } none)
      ∧ [ascii "sh", ascii "-c", ([] : GoString)] ≠ [ascii "sh", ascii "-c", ascii "<nil>"]) := by
  decide

/-! ## The configuration path -/

/-- C9: the first step of every run builds the configuration from the
path given with `--kubeconfig` when the flag is given, and otherwise from
the default: the join of the home directory, `.kube` and `config` when
the home directory is not empty, the empty path when it is. -/
theorem main_kubeconfig_path (w : World) (p : Process) (fuel : Nat) :
    ∃ err,
      (main w p fuel).trace.head? = some (Event.BuildConfigFromFlags []
        (match p.kubeconfigFlag with
         | some given => given
         | none =>
           if p.home ≠ [] then w.Join [p.home, ascii ".kube", ascii "config"] else [])
        err) := by
  have hpath : (if p.home ≠ [] then flagString p (w.Join [p.home, ascii ".kube", ascii "config"])
        else flagString p [])
      = (match p.kubeconfigFlag with
         | some given => given
         | none =>
           if p.home ≠ [] then w.Join [p.home, ascii ".kube", ascii "config"] else []) := by
    unfold flagString
    cases p.kubeconfigFlag <;> simp
  simp only [main, hpath]
  repeat' split
  all_goals exact ⟨_, rfl⟩

/-! ## The workflow -/

/-- C3: in every run that returns, the remote calls are one create, then
one or more gets, then one exec, then one delete; every get succeeded, the
pod of the last get is running and the pods of the gets before it are not. -/
theorem main_call_order (w : World) (p : Process) (fuel : Nat)
    (hret : (main w p fuel).outcome = Outcome.returned) :
    ∃ (pods : List Pod) (last : Pod),
      remoteCalls (main w p fuel).trace
          = [RemoteCall.create] ++ List.replicate (pods.length + 1) RemoteCall.get
            ++ [RemoteCall.exec, RemoteCall.delete]
        ∧ (main w p fuel).trace.filterMap Event.gotPod = pods ++ [last]
        ∧ last.Phase = PodRunning
        ∧ ∀ pod ∈ pods, pod.Phase ≠ PodRunning := by
  have h := main_shape w p fuel
  generalize main w p fuel = run at h hret
  cases h
  case returned kubeconfig config created pods last req buffer hloop hpend hlast =>
    refine ⟨pods, last, ?_, ?_, hlast, hpend⟩
    · simp only [remoteCalls_append, remoteCalls_setupSteps, remoteCalls_pendingRounds,
        remoteCalls_pollRound, remoteCalls_teardownSteps]
      simp [remoteCalls, Event.remoteCall, List.filterMap_cons, List.replicate_succ' ]
    · simp only [List.filterMap_append, gotPod_pendingRounds, gotPod_teardownSteps]
      simp [setupSteps, pollRound, Event.gotPod, List.filterMap_cons]
  all_goals simp at hret

/-- The scenario returns after create, three gets, exec and delete. -/
theorem main_call_order_witness :
    ∃ (pods : List Pod) (last : Pod),
      remoteCalls (main scenarioWorld sampleProcess 3).trace
          = [RemoteCall.create] ++ List.replicate (pods.length + 1) RemoteCall.get
            ++ [RemoteCall.exec, RemoteCall.delete]
        ∧ (main scenarioWorld sampleProcess 3).trace.filterMap Event.gotPod = pods ++ [last]
        ∧ last.Phase = PodRunning
        ∧ ∀ pod ∈ pods, pod.Phase ≠ PodRunning :=
  main_call_order scenarioWorld sampleProcess 3 (by decide)

/-- C4: a step of a run that returns an error is the last step of the run:
after a failed create there is no get, exec or delete, after a failed get
no further get, no exec and no delete, after a failed exec no output
filtering and no delete. -/
theorem main_fail_fast (w : World) (p : Process) (fuel : Nat) (pre post : List Event)
    (ev : Event) (hsplit : (main w p fuel).trace = pre ++ ev :: post)
    (herr : ev.err ≠ none) : post = [] := by
  rcases main_summary w p fuel with ⟨init, final, err, htrace, hinit, -, -⟩ | ⟨hall, -⟩
  · exact nothing_after_failure init final hinit pre post ev (by rw [← htrace, hsplit]) herr
  · exact no_failure _ hall pre post ev hsplit herr

/-- With a failing exec stream the run stops at the stream: the steps
after it, the output filter and the delete call among them, are none. -/
theorem main_fail_fast_witness :
    (main brokenStreamWorld sampleProcess 3).trace
        = (main brokenStreamWorld sampleProcess 3).trace.take 15 ++ failedStream
          :: (main brokenStreamWorld sampleProcess 3).trace.drop 16
      ∧ failedStream.err ≠ none
      ∧ (main brokenStreamWorld sampleProcess 3).trace.drop 16 = [] :=
  ⟨by decide, by decide,
   main_fail_fast brokenStreamWorld sampleProcess 3
     ((main brokenStreamWorld sampleProcess 3).trace.take 15)
     ((main brokenStreamWorld sampleProcess 3).trace.drop 16) failedStream
     (by decide) (by decide)⟩

/-- C6: a run panics with a message exactly when one of its steps
(building the configuration, constructing the client, create, a get, exec,
delete) returned an error with that message; in particular a failed delete
panics, and a run with no failed step in which a running pod was seen
returns. -/
theorem main_panics_iff (w : World) (p : Process) (fuel : Nat) :
    (∀ msg, (main w p fuel).outcome = Outcome.panicked msg
        ↔ ∃ ev ∈ (main w p fuel).trace, ev.err = some msg)
      ∧ (∀ msg, Event.Delete (ascii "nginx") (ascii "new-pod") (some msg)
            ∈ (main w p fuel).trace → (main w p fuel).outcome = Outcome.panicked msg)
      ∧ ((∀ ev ∈ (main w p fuel).trace, ev.err = none) →
          (∃ pod ∈ (main w p fuel).trace.filterMap Event.gotPod, pod.Phase = PodRunning) →
          (main w p fuel).outcome = Outcome.returned) := by
  have hiff : ∀ msg, (main w p fuel).outcome = Outcome.panicked msg
      ↔ ∃ ev ∈ (main w p fuel).trace, ev.err = some msg := by
    intro msg
    rcases main_summary w p fuel with ⟨init, final, err, htrace, hinit, hfinal, hout⟩ | ⟨hall, hout⟩
    · constructor
      · intro h
        rw [hout] at h
        injection h with h
        subst h
        exact ⟨final, by rw [htrace]; simp, hfinal⟩
      · rintro ⟨ev, hev, herr⟩
        rw [htrace, List.mem_append, List.mem_singleton] at hev
        rcases hev with hev | hev
        · rw [hinit ev hev] at herr
          cases herr
        · subst hev
          rw [hfinal] at herr
          injection herr with herr
          rw [hout, herr]
    · constructor
      · intro h
        rcases hout with hout | ⟨hout, -⟩ <;> rw [hout] at h <;> cases h
      · rintro ⟨ev, hev, herr⟩
        rw [hall ev hev] at herr
        cases herr
  refine ⟨hiff, ?_, ?_⟩
  · intro msg hmem
    exact (hiff msg).mpr ⟨_, hmem, rfl⟩
  · intro hall ⟨pod, hpod, hrun⟩
    rcases main_summary w p fuel with ⟨init, final, err, htrace, -, hfinal, -⟩ | ⟨-, hout⟩
    · have := hall final (by rw [htrace]; simp)
      rw [hfinal] at this
      cases this
    · rcases hout with hout | ⟨-, hnone⟩
      · exact hout
      · exact absurd hrun (hnone pod hpod)

/-- A failed delete panics with its message, and the scenario, in which no
step fails and the third get sees a running pod, returns. -/
theorem main_panics_iff_witness :
    (main brokenDeleteWorld sampleProcess 3).outcome = Outcome.panicked (ascii "forbidden")
      ∧ (main scenarioWorld sampleProcess 3).outcome = Outcome.returned :=
  ⟨(main_panics_iff brokenDeleteWorld sampleProcess 3).2.1 (ascii "forbidden") (by decide),
   (main_panics_iff scenarioWorld sampleProcess 3).2.2 (by decide)
     ⟨scenarioPod 2, by decide, by decide⟩⟩

/-! ## Polling -/

/-- C2: when the first `N` gets succeed and the `N`-th is the first to
answer with a running pod, the readiness loop makes exactly `N` gets, with
a sleep of one second after each of the first `N - 1` and none after the
`N`-th, and a run that got past create goes on to the exec step right
after the loop, making no other get. -/
theorem readiness_gets_until_running (w : World) (p : Process) (N fuel : Nat)
    (resp : Nat → Pod) (hN : 1 ≤ N) (hfuel : N ≤ fuel)
    (hresp : ∀ j < N, w.Get j (ascii "nginx") (ascii "new-pod") = Except.ok (resp j))
    (hpending : ∀ j < N - 1, (resp j).Phase ≠ PodRunning)
    (hrunning : (resp (N - 1)).Phase = PodRunning) :
    readinessLoop w fuel 0
        = (pendingRounds ((List.range (N - 1)).map resp) ++ pollRound (resp (N - 1)),
           LoopExit.broke)
      ∧ remoteCalls (readinessLoop w fuel 0).1 = List.replicate N RemoteCall.get
      ∧ (readinessLoop w fuel 0).1.filter Event.isSleep = List.replicate (N - 1) (Event.Sleep 1)
      ∧ (Event.Create (ascii "nginx") podSpec none ∈ (main w p fuel).trace →
          ∃ pre config req err post,
            (main w p fuel).trace
                = pre ++ (readinessLoop w fuel 0).1
                  ++ Event.NewSPDYExecutor config (ascii "POST") req err :: post
              ∧ remoteCalls pre = [RemoteCall.create]
              ∧ RemoteCall.get ∉ remoteCalls post) := by
  have hloop : readinessLoop w fuel 0
      = (pendingRounds ((List.range (N - 1)).map resp) ++ pollRound (resp (N - 1)),
         LoopExit.broke) := by
    apply readinessLoop_break w (resp (N - 1)) hrunning
    · simp; omega
    · intro j pod hj
      rw [List.getElem?_map] at hj
      have hlt : j < N - 1 := by
        by_contra hge
        rw [List.getElem?_eq_none (by simp; omega)] at hj
        simp at hj
      rw [List.getElem?_range hlt] at hj
      simp only [Option.map_some', Option.some.injEq] at hj
      rw [Nat.zero_add, ← hj]
      exact hresp j (by omega)
    · intro pod hpod
      rw [List.mem_map] at hpod
      obtain ⟨j, hj, rfl⟩ := hpod
      exact hpending j (List.mem_range.mp hj)
    · simp only [List.length_map, List.length_range, Nat.zero_add]
      exact hresp (N - 1) (by omega)
  refine ⟨hloop, ?_, ?_, ?_⟩
  · rw [hloop]
    simp only [remoteCalls_append, remoteCalls_pendingRounds, remoteCalls_pollRound,
      List.length_map, List.length_range]
    rw [← List.replicate_succ', show N - 1 + 1 = N by omega]
  · rw [hloop]
    simp only [List.filter_append, sleeps_pendingRounds, List.length_map, List.length_range]
    simp [pollRound, Event.isSleep, List.filter_cons]
  · intro hcreate
    have h := main_shape w p fuel
    generalize main w p fuel = run at h hcreate
    cases h
    case configError kubeconfig err => simp at hcreate
    case clientError kubeconfig config err => simp at hcreate
    case createError kubeconfig config err => simp at hcreate
    case polling kubeconfig config created pods hloop1 hpend hlen =>
      rw [hloop] at hloop1
      simp at hloop1
    case getError kubeconfig config created pods err hloop1 hpend =>
      rw [hloop] at hloop1
      simp at hloop1
    case executorError kubeconfig config created pods last req err hloop1 hpend hlast =>
      refine ⟨setupSteps kubeconfig config created, config, req, some err, [], ?_,
        remoteCalls_setupSteps _ _ _, by simp [remoteCalls]⟩
      rw [hloop1]
    case streamError kubeconfig config created pods last req err hloop1 hpend hlast =>
      refine ⟨setupSteps kubeconfig config created, config, req, none,
        [Event.Stream req (some p.Stdin) (some err)], ?_,
        remoteCalls_setupSteps _ _ _, by simp [remoteCalls, Event.remoteCall]⟩
      rw [hloop1]
    case deleteError kubeconfig config created pods last req buffer err hloop1 hpend hlast =>
      refine ⟨setupSteps kubeconfig config created, config, req, none,
        Event.Stream req (some p.Stdin) none :: teardownSteps buffer (some err), ?_,
        remoteCalls_setupSteps _ _ _, ?_⟩
      · rw [hloop1]
        simp
      · rw [show Event.Stream req (some p.Stdin) none :: teardownSteps buffer (some err)
            = [Event.Stream req (some p.Stdin) none] ++ teardownSteps buffer (some err) from rfl,
          remoteCalls_append, remoteCalls_teardownSteps]
        simp [remoteCalls, Event.remoteCall]
    case returned kubeconfig config created pods last req buffer hloop1 hpend hlast =>
      refine ⟨setupSteps kubeconfig config created, config, req, none,
        Event.Stream req (some p.Stdin) none :: teardownSteps buffer none, ?_,
        remoteCalls_setupSteps _ _ _, ?_⟩
      · rw [hloop1]
        simp
      · rw [show Event.Stream req (some p.Stdin) none :: teardownSteps buffer none
            = [Event.Stream req (some p.Stdin) none] ++ teardownSteps buffer none from rfl,
          remoteCalls_append, remoteCalls_teardownSteps]
        simp [remoteCalls, Event.remoteCall]

/-- The scenario, phases `Pending`, `Pending`, `Running`: three gets, two
sleeps, then the exec step. -/
theorem readiness_gets_until_running_witness :
    (readinessLoop scenarioWorld 3 0
        = (pendingRounds ((List.range (3 - 1)).map scenarioPod) ++ pollRound (scenarioPod (3 - 1)),
           LoopExit.broke)
      ∧ remoteCalls (readinessLoop scenarioWorld 3 0).1 = List.replicate 3 RemoteCall.get
      ∧ (readinessLoop scenarioWorld 3 0).1.filter Event.isSleep
          = List.replicate (3 - 1) (Event.Sleep 1)
      ∧ (Event.Create (ascii "nginx") podSpec none ∈ (main scenarioWorld sampleProcess 3).trace →
          ∃ pre config req err post,
            (main scenarioWorld sampleProcess 3).trace
                = pre ++ (readinessLoop scenarioWorld 3 0).1
                  ++ Event.NewSPDYExecutor config (ascii "POST") req err :: post
              ∧ remoteCalls pre = [RemoteCall.create]
              ∧ RemoteCall.get ∉ remoteCalls post))
      ∧ Event.Create (ascii "nginx") podSpec none ∈ (main scenarioWorld sampleProcess 3).trace :=
  ⟨readiness_gets_until_running scenarioWorld sampleProcess 3 3 scenarioPod (by decide)
    (by decide) (by decide) (by decide) (by decide), by decide⟩

/-- C7: when every get succeeds and none answers with a running pod, the
readiness loop is still polling after `k` gets, for every `k`, and a run
that got past create has then made the create and `k` gets and no step of
the exec, the output filter or the delete. -/
theorem readiness_never_exits (w : World) (p : Process) (k : Nat)
    (hnever : ∀ j, ∃ pod, w.Get j (ascii "nginx") (ascii "new-pod") = Except.ok pod
      ∧ pod.Phase ≠ PodRunning) :
    (readinessLoop w k 0).2 = LoopExit.polling
      ∧ remoteCalls (readinessLoop w k 0).1 = List.replicate k RemoteCall.get
      ∧ (Event.Create (ascii "nginx") podSpec none ∈ (main w p k).trace →
          (main w p k).outcome = Outcome.polling
            ∧ remoteCalls (main w p k).trace = RemoteCall.create :: List.replicate k RemoteCall.get
            ∧ ∀ ev ∈ (main w p k).trace, ev.afterLoop = false) := by
  have hloop : ∃ pods : List Pod, pods.length = k
      ∧ readinessLoop w k 0 = (pendingRounds pods, LoopExit.polling) := by
    obtain ⟨pods, -, -, hend⟩ := readinessLoop_cases w k 0
    rcases hend with ⟨last, hl, -, hg, -⟩ | ⟨err, -, hg, -⟩ | ⟨hlen, hloop⟩
    · obtain ⟨pod, hpod, hne⟩ := hnever (0 + pods.length)
      rw [hg] at hpod
      injection hpod with hpod
      exact absurd (hpod ▸ hl) hne
    · obtain ⟨pod, hpod, -⟩ := hnever (0 + pods.length)
      rw [hg] at hpod
      cases hpod
    · exact ⟨pods, hlen, hloop⟩
  obtain ⟨pods, hlen, hloop⟩ := hloop
  refine ⟨by rw [hloop], ?_, ?_⟩
  · rw [hloop]
    simp only [remoteCalls_pendingRounds, hlen]
  · intro hcreate
    have h := main_shape w p k
    generalize main w p k = run at h hcreate
    cases h
    case configError kubeconfig err => simp at hcreate
    case clientError kubeconfig config err => simp at hcreate
    case createError kubeconfig config err => simp at hcreate
    case polling kubeconfig config created pods1 hloop1 hpend hlen1 =>
      refine ⟨rfl, ?_, ?_⟩
      · simp only [remoteCalls_append, remoteCalls_setupSteps, remoteCalls_pendingRounds, hlen1]
        rfl
      · exact List.forall_mem_append.mpr ⟨afterLoop_setupSteps _ _ _, afterLoop_pendingRounds _⟩
    case getError kubeconfig config created pods1 err hloop1 hpend =>
      rw [hloop] at hloop1
      simp at hloop1
    case executorError kubeconfig config created pods1 last req err hloop1 hpend hlast =>
      rw [hloop] at hloop1
      simp at hloop1
    case streamError kubeconfig config created pods1 last req err hloop1 hpend hlast =>
      rw [hloop] at hloop1
      simp at hloop1
    case deleteError kubeconfig config created pods1 last req buffer err hloop1 hpend hlast =>
      rw [hloop] at hloop1
      simp at hloop1
    case returned kubeconfig config created pods1 last req buffer hloop1 hpend hlast =>
      rw [hloop] at hloop1
      simp at hloop1

/-- A pod that stays `Pending`: after five gets the run is still polling. -/
theorem readiness_never_exits_witness :
    ((readinessLoop pendingWorld 5 0).2 = LoopExit.polling
      ∧ remoteCalls (readinessLoop pendingWorld 5 0).1 = List.replicate 5 RemoteCall.get
      ∧ (Event.Create (ascii "nginx") podSpec none ∈ (main pendingWorld sampleProcess 5).trace →
          (main pendingWorld sampleProcess 5).outcome = Outcome.polling
            ∧ remoteCalls (main pendingWorld sampleProcess 5).trace
                = RemoteCall.create :: List.replicate 5 RemoteCall.get
            ∧ ∀ ev ∈ (main pendingWorld sampleProcess 5).trace, ev.afterLoop = false))
      ∧ Event.Create (ascii "nginx") podSpec none ∈ (main pendingWorld sampleProcess 5).trace :=
  ⟨readiness_never_exits pendingWorld sampleProcess 5 (fun _ => ⟨_, rfl, by decide⟩),
   by decide⟩

/-! ## The output filter -/

/-- C1, as the code has it: on a buffer whose lines are all shorter than
`MaxScanTokenSize`, `checkOutput` prints exactly the lines that contain
`media`, once each and in order, each without a trailing carriage return;
it prints nothing when no line contains `media`. -/
theorem checkOutput_short_lines (buf : GoString)
    (hshort : ∀ l ∈ specLines buf, l.length < MaxScanTokenSize) :
    checkOutput buf
      = ((specLines buf).filter (fun line => Contains line media)).map
          (fun line => Println [ascii "Read line:", dropCR line]) := by
  rw [checkOutput, checkOutputRun_short buf hshort]
  exact filter_dropCR _

/-- The scenario's listing prints the one line `media`. -/
theorem checkOutput_short_lines_witness :
    checkOutput (ascii "total 0\nmedia\nbin\n")
        = ((specLines (ascii "total 0\nmedia\nbin\n")).filter (fun line => Contains line media)).map
            (fun line => Println [ascii "Read line:", dropCR line])
      ∧ checkOutput (ascii "total 0\nmedia\nbin\n") = [Println [ascii "Read line:", ascii "media"]] :=
  ⟨checkOutput_short_lines (ascii "total 0\nmedia\nbin\n") (by decide), by decide⟩

/-- C1 fails as stated: after an over-long line the line `media` is not
printed, though the specification's filter prints it, and a last line
`media` followed by a carriage return is printed without the carriage
return, not as it stands. -/
theorem checkOutput_not_specCheckOutput :
    (checkOutput overlongBuffer = []
        ∧ Println [ascii "Read line:", media] ∈ specCheckOutput overlongBuffer
        ∧ checkOutput overlongBuffer ≠ specCheckOutput overlongBuffer)
      ∧ (checkOutput (ascii "media\r") = [ascii "Read line: media\n"]
        ∧ specCheckOutput (ascii "media\r") = [ascii "Read line: media\r\n"]
        ∧ checkOutput (ascii "media\r") ≠ specCheckOutput (ascii "media\r")) := by
  refine ⟨?_, by decide, by decide, by decide⟩
  have hcode : checkOutput overlongBuffer = [] :=
    checkOutput_of_run _ _ _ checkOutputRun_overlong
  have hspec : Println [ascii "Read line:", media] ∈ specCheckOutput overlongBuffer := by
    rw [specCheckOutput, specLines_overlongBuffer]
    refine List.mem_map.mpr ⟨media, List.mem_filter.mpr ⟨by simp, by decide⟩, rfl⟩
  refine ⟨hcode, hspec, ?_⟩
  rw [hcode]
  intro h
  rw [← h] at hspec
  cases hspec

/-- C10: the scanner of `checkOutput` takes lines shorter than 64 KiB and
its error is dropped.  On a buffer of such lines the loop reads every line,
prints those with `media` and ends with the input consumed and no error.
On short lines followed by bytes whose first 64 KiB hold no newline it
prints what the short lines give and stops there with `ErrTooLong`, which
`checkOutput` does not report; so on the over-long buffer the later line
`media` is not printed.  A line that contains `media` and ends in a
carriage return and a newline is printed without the carriage return. -/
theorem checkOutput_scanner_limit :
    MaxScanTokenSize = 65536
      ∧ (∀ buf : GoString, (∀ l ∈ specLines buf, l.length < MaxScanTokenSize) →
          checkOutputRun buf
              = some (printed ((specLines buf).map dropCR), ⟨[], [], some ScanErr.EOF, false⟩)
            ∧ Scanner.Err ⟨[], [], some ScanErr.EOF, false⟩ = none)
      ∧ (∀ (ls : List (List Byte)) (long : List Byte),
          (∀ l ∈ ls, (10 : Byte) ∉ l ∧ l.length < MaxScanTokenSize) →
          (10 : Byte) ∉ long.take MaxScanTokenSize → MaxScanTokenSize ≤ long.length →
          checkOutputRun (ls.flatMap (fun l => l ++ [10]) ++ long)
              = some (printed (ls.map dropCR),
                  ⟨long.drop MaxScanTokenSize, long.take MaxScanTokenSize,
                   some ScanErr.ErrTooLong, false⟩)
            ∧ Scanner.Err ⟨long.drop MaxScanTokenSize, long.take MaxScanTokenSize,
                some ScanErr.ErrTooLong, false⟩ = some ScanErr.ErrTooLong
            ∧ checkOutput (ls.flatMap (fun l => l ++ [10]) ++ long) = printed (ls.map dropCR))
      ∧ (specLines overlongBuffer = [List.replicate MaxScanTokenSize 120, media]
          ∧ Contains media media = true
          ∧ checkOutputRun overlongBuffer
              = some ([], ⟨10 :: (media ++ [10]), List.replicate MaxScanTokenSize 120,
                           some ScanErr.ErrTooLong, false⟩)
          ∧ checkOutput overlongBuffer = [])
      ∧ (∀ line : List Byte, (10 : Byte) ∉ line → line.length + 1 < MaxScanTokenSize →
          Contains line media = true →
          specLines (line ++ [13, 10]) = [line ++ [13]]
            ∧ checkOutput (line ++ [13, 10]) = [Println [ascii "Read line:", line]]) := by
  refine ⟨by decide, ?_, ?_, ⟨specLines_overlongBuffer, by decide, checkOutputRun_overlong,
    checkOutput_of_run _ _ _ checkOutputRun_overlong⟩, ?_⟩
  · intro buf hshort
    exact ⟨checkOutputRun_short buf hshort, by decide⟩
  · intro ls long hls hno hlong
    have hrun := checkOutputRun_long ls long hls hno hlong
    exact ⟨hrun, by simp [Scanner.Err], checkOutput_of_run _ _ _ hrun⟩
  · intro line hline hlen hmedia
    have hno : (10 : Byte) ∉ line ++ [13] := by
      intro h
      rcases List.mem_append.mp h with h | h
      · exact hline h
      · revert h; decide
    have hlines : specLines (line ++ [13, 10]) = [line ++ [13]] := by
      rw [show line ++ [13, 10] = (line ++ [13]) ++ 10 :: [] by simp, specLines_newline _ _ hno]
      rfl
    refine ⟨hlines, ?_⟩
    rw [checkOutput, checkOutputRun_short _ (by
      rw [hlines]
      intro l hl
      rw [List.mem_singleton.mp hl]
      simpa using hlen), hlines]
    simp [printed, dropCR_append_CR, hmedia]

/-- A listing with carriage returns is read to its end and its line
`media` printed without the carriage return; a line `media` followed by
the over-long buffer is printed and the scan stops after it with
`ErrTooLong`; the single line `media` with carriage return and newline is
printed as `media`. -/
theorem checkOutput_scanner_limit_witness :
    (checkOutputRun (ascii "total 0\r\nmedia\r\nbin\r\n")
          = some (printed ((specLines (ascii "total 0\r\nmedia\r\nbin\r\n")).map dropCR),
              ⟨[], [], some ScanErr.EOF, false⟩)
        ∧ Scanner.Err ⟨[], [], some ScanErr.EOF, false⟩ = none)
      ∧ (checkOutputRun ([ascii "media"].flatMap (fun l => l ++ [10]) ++ overlongBuffer)
          = some (printed ([ascii "media"].map dropCR),
              ⟨overlongBuffer.drop MaxScanTokenSize, overlongBuffer.take MaxScanTokenSize,
               some ScanErr.ErrTooLong, false⟩)
        ∧ Scanner.Err ⟨overlongBuffer.drop MaxScanTokenSize,
            overlongBuffer.take MaxScanTokenSize, some ScanErr.ErrTooLong, false⟩
            = some ScanErr.ErrTooLong
        ∧ checkOutput ([ascii "media"].flatMap (fun l => l ++ [10]) ++ overlongBuffer)
            = printed ([ascii "media"].map dropCR))
      ∧ (specLines (ascii "media" ++ [13, 10]) = [ascii "media" ++ [13]]
        ∧ checkOutput (ascii "media" ++ [13, 10]) = [Println [ascii "Read line:", ascii "media"]])
      ∧ printed ((specLines (ascii "total 0\r\nmedia\r\nbin\r\n")).map dropCR)
          = [ascii "Read line: media\n"]
      ∧ printed ([ascii "media"].map dropCR) = [ascii "Read line: media\n"] :=
  ⟨checkOutput_scanner_limit.2.1 (ascii "total 0\r\nmedia\r\nbin\r\n") (by decide),
   checkOutput_scanner_limit.2.2.1 [ascii "media"] overlongBuffer (by decide)
     (by rw [take_overlongBuffer]; exact newline_not_mem_overlong) length_overlongBuffer,
   checkOutput_scanner_limit.2.2.2.2 (ascii "media") (by decide) (by decide) (by decide),
   by decide, by decide⟩

end GoK8s
